import Mathlib

/-!
# Verification of the SJJP Requests Portal persistence / sync core

This file is a shallow embedding of the data model and the operations of
`app.py` (local JSON store, identity-and-defaults normalizers, the
request persistence path, the role-based visibility filter, the Manage
Requests save path, and the Supabase push/pull sync engine), together
with theorems settling the specification's claims about them.

JSON-like record values are modelled by an inductive `Value`; a record
(a Python `dict`) is an insertion-ordered association list
`Rec = List (String × Value)` with Python-`dict` assignment semantics
(`dset`: replace in place, else append).  Python's `str.strip`,
`str.upper`, `str.lower`, `str()` and `int()` are modelled by
executable functions on these values.
-/

set_option maxHeartbeats 1000000

namespace SJJP

/-- A JSON-like value as stored in the local files / passed to the remote
store.  The only list-valued field in the data model is `School.coaches`
(a list of PS-number strings), so lists are modelled as string lists. -/
inductive Value where
  | vNull : Value
  | vBool (b : Bool) : Value
  | vInt (n : Int) : Value
  | vStr (s : String) : Value
  | vStrList (xs : List String) : Value
deriving DecidableEq, Repr

/-- A record (Python `dict` with string keys), as an insertion-ordered
association list. -/
def Rec : Type := List (String × Value)

instance : DecidableEq Rec := by unfold Rec; infer_instance

instance : Repr Rec := by unfold Rec; infer_instance

/-- Python `d[k] = v`: replace the value at the first occurrence of the
key, keeping its position, otherwise append the pair at the end. -/
def dset {α β : Type} [DecidableEq α] : List (α × β) → α → β → List (α × β)
  | [], k, v => [(k, v)]
  | (k', v') :: rest, k, v =>
    if k' = k then (k, v) :: rest else (k', v') :: dset rest k v

/-- Python `d.get(k)`: value at the first occurrence of the key. -/
def dget {α β : Type} [DecidableEq α] : List (α × β) → α → Option β
  | [], _ => none
  | (k', v') :: rest, k => if k' = k then some v' else dget rest k

/-- Python `list(d.values())` (insertion order). -/
def dvalues {α β : Type} (d : List (α × β)) : List β := d.map Prod.snd

/-- Python `k in d`. -/
def hasKey {α β : Type} [DecidableEq α] (d : List (α × β)) (k : α) : Bool :=
  (dget d k).isSome

/-- Python `d.setdefault(k, v)` (ignoring the returned value). -/
def dsetdefault {α β : Type} [DecidableEq α] (d : List (α × β)) (k : α) (v : β) :
    List (α × β) :=
  if hasKey d k then d else dset d k v

@[simp] theorem dget_nil {α β : Type} [DecidableEq α] (k : α) :
    dget ([] : List (α × β)) k = none := rfl

theorem dget_dset_self {α β : Type} [DecidableEq α] (d : List (α × β)) (k : α) (v : β) :
    dget (dset d k v) k = some v := by
  induction d with
  | nil => simp [dget, dset]
  | cons p rest ih =>
    obtain ⟨k', v'⟩ := p
    by_cases h : k' = k
    · simp [dget, dset, h]
    · simp [dget, dset, h, ih]

theorem dget_dset_ne {α β : Type} [DecidableEq α] (d : List (α × β)) (k k₂ : α) (v : β)
    (h : k₂ ≠ k) : dget (dset d k v) k₂ = dget d k₂ := by
  induction d with
  | nil => simp [dget, dset, Ne.symm h]
  | cons p rest ih =>
    obtain ⟨k', v'⟩ := p
    by_cases hk : k' = k
    · subst hk
      simp [dget, dset, Ne.symm h]
    · by_cases hk2 : k' = k₂
      · simp [dget, dset, hk, hk2, h]
      · simp [dget, dset, hk, hk2, ih]

theorem dset_eq_of_dget (d : List (String × Value)) (k : String) (v : Value)
    (h : dget d k = some v) : dset d k v = d := by
  induction d with
  | nil => simp [dget] at h
  | cons p rest ih =>
    obtain ⟨k', v'⟩ := p
    by_cases hk : k' = k
    · subst hk
      simp [dget] at h
      simp [dset, h]
    · simp [dget, hk] at h
      simp [dset, hk, ih h]

theorem mem_dvalues_dset {α β : Type} [DecidableEq α] (d : List (α × β)) (k : α) (v : β) :
    v ∈ dvalues (dset d k v) := by
  induction d with
  | nil => simp [dset, dvalues]
  | cons p rest ih =>
    obtain ⟨k', v'⟩ := p
    by_cases h : k' = k <;> simp [dset, dvalues, h]
    · right
      simpa [dvalues] using ih

theorem dvalues_dset_subset {α β : Type} [DecidableEq α] (d : List (α × β)) (k : α)
    (v x : β) (hx : x ∈ dvalues (dset d k v)) : x = v ∨ x ∈ dvalues d := by
  induction d with
  | nil => simpa [dset, dvalues] using hx
  | cons p rest ih =>
    obtain ⟨k', v'⟩ := p
    by_cases h : k' = k
    · simp [dset, dvalues, h] at hx
      rcases hx with h1 | h2
      · exact Or.inl h1
      · exact Or.inr (by simp [dvalues, h2])
    · simp [dset, dvalues, h] at hx
      rcases hx with h1 | h2
      · exact Or.inr (by simp [dvalues, h1])
      · rcases ih (by simpa [dvalues] using h2) with h3 | h4
        · exact Or.inl h3
        · exact Or.inr (by simp [dvalues]; right; simpa [dvalues] using h4)

theorem dget_mem {α β : Type} [DecidableEq α] (d : List (α × β)) (k : α) (v : β)
    (h : dget d k = some v) : (k, v) ∈ d := by
  induction d with
  | nil => simp [dget] at h
  | cons p rest ih =>
    obtain ⟨k', v'⟩ := p
    by_cases hk : k' = k
    · subst hk
      simp [dget] at h
      simp [h]
    · simp [dget, hk] at h
      exact List.mem_cons_of_mem _ (ih h)

/-! ## Python string and value primitives -/

/-- The whitespace characters recognised by Python `str.strip()`. -/
def wsChars : List Char := [' ', '\t', '\n', '\r', Char.ofNat 11, Char.ofNat 12]

/-- Is this character Python whitespace? -/
def isPySpace (c : Char) : Bool := decide (c ∈ wsChars)

/-- `str.strip()` on a character list: drop leading and trailing whitespace. -/
def stripList (l : List Char) : List Char :=
  ((l.dropWhile isPySpace).reverse.dropWhile isPySpace).reverse

/-- Python `s.strip()`. -/
def pyStrip (s : String) : String := ⟨stripList s.data⟩

theorem dropWhile_dropWhile {α : Type} (p : α → Bool) (l : List α) :
    (l.dropWhile p).dropWhile p = l.dropWhile p := by
  induction l with
  | nil => rfl
  | cons a t ih =>
    by_cases h : p a
    · simp [List.dropWhile, h, ih]
    · simp [List.dropWhile, h]

theorem dropWhile_isSuffix {α : Type} (p : α → Bool) (l : List α) :
    l.dropWhile p <:+ l := by
  induction l with
  | nil => simp
  | cons a t ih =>
    by_cases h : p a
    · simp only [List.dropWhile, h]
      exact ih.trans (List.suffix_cons a t)
    · simp [List.dropWhile, h]

theorem dropWhile_eq_self_of_suffix {α : Type} (p : α → Bool) {l m : List α}
    (hl : l.dropWhile p = l) (hm : m.reverse <:+ l.reverse) :
    m.dropWhile p = m := by
  have hp : m <+: l := List.reverse_suffix.mp hm
  obtain ⟨t, ht⟩ := hp
  cases m with
  | nil => rfl
  | cons a m' =>
    cases l with
    | nil => simp at ht
    | cons b l' =>
      have hab : a = b := by
        have := congrArg (List.head? ·) ht
        simpa using this
      subst hab
      by_cases h : p a
      · rw [List.dropWhile_cons_of_pos h] at hl
        have : (l'.dropWhile p).length = l'.length + 1 := by rw [hl]; simp
        have hle : (l'.dropWhile p).length ≤ l'.length :=
          ((List.dropWhile_suffix p).sublist).length_le
        omega
      · simp [List.dropWhile, h]

theorem stripList_dropWhile (l : List Char) :
    (stripList l).dropWhile isPySpace = stripList l := by
  unfold stripList
  apply dropWhile_eq_self_of_suffix isPySpace (dropWhile_dropWhile isPySpace l)
  rw [List.reverse_reverse]
  exact dropWhile_isSuffix isPySpace _

theorem stripList_reverse_dropWhile (l : List Char) :
    (stripList l).reverse.dropWhile isPySpace = (stripList l).reverse := by
  unfold stripList
  rw [List.reverse_reverse]
  exact dropWhile_dropWhile isPySpace _

/-- Stripping is idempotent. -/
theorem stripList_idem (l : List Char) : stripList (stripList l) = stripList l := by
  conv_lhs => rw [stripList, stripList_dropWhile, stripList_reverse_dropWhile]
  rw [List.reverse_reverse]

theorem pyStrip_idem (s : String) : pyStrip (pyStrip s) = pyStrip s := by
  unfold pyStrip
  exact congrArg String.mk (stripList_idem s.data)

theorem pyStrip_empty : pyStrip "" = "" := rfl

/-- ASCII lower-to-upper pairs, as used by Python `str.upper()` on the
ASCII letters (the application's data is ASCII). -/
def upperPairs : List (Char × Char) :=
  [('a', 'A'), ('b', 'B'), ('c', 'C'), ('d', 'D'), ('e', 'E'), ('f', 'F'),
   ('g', 'G'), ('h', 'H'), ('i', 'I'), ('j', 'J'), ('k', 'K'), ('l', 'L'),
   ('m', 'M'), ('n', 'N'), ('o', 'O'), ('p', 'P'), ('q', 'Q'), ('r', 'R'),
   ('s', 'S'), ('t', 'T'), ('u', 'U'), ('v', 'V'), ('w', 'W'), ('x', 'X'),
   ('y', 'Y'), ('z', 'Z')]

/-- Upper-case one character. -/
def upChar (c : Char) : Char := (dget upperPairs c).getD c

/-- Python `s.upper()`. -/
def pyUpper (s : String) : String := ⟨s.data.map upChar⟩

theorem upChar_idem (c : Char) : upChar (upChar c) = upChar c := by
  unfold upChar
  cases h : dget upperPairs c with
  | none => simp [h]
  | some u =>
    have hmem := dget_mem upperPairs c u h
    have hall : upperPairs.all (fun p => (dget upperPairs p.2).isNone) = true := by decide
    have := List.all_eq_true.mp hall _ hmem
    simp only [Option.getD_some]
    cases h2 : dget upperPairs u with
    | none => simp [h2]
    | some w => rw [h2] at this; simp at this

theorem isPySpace_upChar (c : Char) : isPySpace (upChar c) = isPySpace c := by
  unfold upChar
  cases h : dget upperPairs c with
  | none => simp [h]
  | some u =>
    have hmem := dget_mem upperPairs c u h
    have hall : upperPairs.all
        (fun p => !isPySpace p.1 && !isPySpace p.2) = true := by decide
    have h2 := List.all_eq_true.mp hall _ hmem
    simp only [Bool.and_eq_true, Bool.not_eq_true'] at h2
    simp [h2.1, h2.2]

/-- Python `s.lower()` (ASCII). -/
def downChar (c : Char) : Char :=
  ((upperPairs.map (fun p => (p.2, p.1))).foldr
    (fun p acc => if p.1 = c then p.2 else acc) c)

def pyLower (s : String) : String := ⟨s.data.map downChar⟩

/-- Python `str(v)` on the modelled values. -/
def pyStr : Value → String
  | .vNull => "None"
  | .vBool b => if b then "True" else "False"
  | .vInt n => toString n
  | .vStr s => s
  | .vStrList xs => "[" ++ String.intercalate ", " xs ++ "]"

/-- Python truthiness of the modelled values. -/
def pyTruthy : Value → Bool
  | .vNull => false
  | .vBool b => b
  | .vInt n => decide (n ≠ 0)
  | .vStr s => decide (s ≠ "")
  | .vStrList xs => decide (xs ≠ [])

/-- Digits of a decimal numeral to a natural number; `none` unless the
list is a non-empty string of digits. -/
def digitsToNat (cs : List Char) : Option Nat :=
  if cs ≠ [] ∧ cs.all Char.isDigit then
    some (cs.foldl (fun a c => a * 10 + (c.toNat - 48)) 0)
  else none

/-- Python `int(s)` on a string: strip whitespace, optional sign, digits. -/
def pyParseInt (s : String) : Option Int :=
  match stripList s.data with
  | [] => none
  | c :: rest =>
    if c = '-' then (digitsToNat rest).map (fun n => -(n : Int))
    else if c = '+' then (digitsToNat rest).map (fun n => (n : Int))
    else (digitsToNat (c :: rest)).map (fun n => (n : Int))

/-- Python `int(v)`: identity on integers, bools to 0/1, numeral strings
parsed, everything else raises (`none`). -/
def pyIntV : Value → Option Int
  | .vInt n => some n
  | .vBool b => some (if b then 1 else 0)
  | .vStr s => pyParseInt s
  | _ => none

/-! ## Identity & Defaults Normalizer (`ensure_request_id_and_defaults`,
`ensure_stock_id_and_defaults`)

`uuid.uuid4()` is modelled by an abstract stream `fresh : Nat → String` of
generated identifiers together with a position counter threaded through the
loop; the uniqueness guarantees of UUIDs become explicit hypotheses on
`fresh` in the theorems.  Each function returns the rewritten rows, the
next counter position, and the `changed` flag; `save_json` is called on
the rows exactly when that flag is true. -/

/-- `if "id" not in r: r["id"] = str(uuid.uuid4())`. -/
def ensureId (fresh : Nat → String) (n : Nat) (r : Rec) : Rec × Nat × Bool :=
  if hasKey r "id" then (r, n, false)
  else (dset r "id" (.vStr (fresh n)), n + 1, true)

/-- Default `status` to `"Pending"` and `ps_number` to `"unknown"`. -/
def reqDefaults (rc : Rec × Bool) : Rec × Bool :=
  let s := if hasKey rc.1 "status" then rc
           else (dset rc.1 "status" (.vStr "Pending"), true)
  if hasKey s.1 "ps_number" then s
  else (dset s.1 "ps_number" (.vStr "unknown"), true)

/-- One iteration of the `ensure_request_id_and_defaults` loop body. -/
def normReqRow (fresh : Nat → String) (n : Nat) (r : Rec) : Rec × Nat × Bool :=
  let a := ensureId fresh n r
  let b := reqDefaults (a.1, a.2.2)
  (b.1, a.2.1, b.2)

/-- The `quantity` handling of the `ensure_stock_id_and_defaults` loop
body: default an absent quantity to `0`, otherwise coerce with `int()`
(setting `changed` only when the coercion raises). -/
def stockQuantityStep (rc : Rec × Bool) : Rec × Bool :=
  if hasKey rc.1 "quantity" then
    match pyIntV ((dget rc.1 "quantity").getD .vNull) with
    | some k => (dset rc.1 "quantity" (.vInt k), rc.2)
    | none => (dset rc.1 "quantity" (.vInt 0), true)
  else (dset rc.1 "quantity" (.vInt 0), true)

/-- The project-label normalization of the loop body: strip and
upper-case a string-valued `project` (never touching `changed`). -/
def stockProjectStep (rc : Rec × Bool) : Rec × Bool :=
  match dget rc.1 "project" with
  | some (.vStr s) => (dset rc.1 "project" (.vStr (pyUpper (pyStrip s))), rc.2)
  | _ => rc

/-- Everything after the id step of `ensure_stock_id_and_defaults`. -/
def stockDefaults (rc : Rec × Bool) : Rec × Bool :=
  stockProjectStep (stockQuantityStep rc)

/-- One iteration of the `ensure_stock_id_and_defaults` loop body. -/
def normStockRow (fresh : Nat → String) (n : Nat) (r : Rec) : Rec × Nat × Bool :=
  let a := ensureId fresh n r
  let b := stockDefaults (a.1, a.2.2)
  (b.1, a.2.1, b.2)

/-- The normalizer loop over a whole collection, accumulating the
`changed` flag. -/
def normListAux (step : Nat → Rec → Rec × Nat × Bool) :
    Nat → List Rec → List Rec × Nat × Bool
  | n, [] => ([], n, false)
  | n, r :: rs =>
    let a := step n r
    let rest := normListAux step a.2.1 rs
    (a.1 :: rest.1, rest.2.1, a.2.2 || rest.2.2)

/-- `ensure_request_id_and_defaults(rows)`: the returned triple is
(normalized rows, next fresh-id position, changed flag); the rows are
written back to `requests.json` exactly when the flag is true. -/
def ensure_request_id_and_defaults (fresh : Nat → String) (n : Nat)
    (rows : List Rec) : List Rec × Nat × Bool :=
  normListAux (normReqRow fresh) n rows

/-- `ensure_stock_id_and_defaults(rows)`: as above, written back to
`stock_kimonos.json` exactly when the flag is true. -/
def ensure_stock_id_and_defaults (fresh : Nat → String) (n : Nat)
    (rows : List Rec) : List Rec × Nat × Bool :=
  normListAux (normStockRow fresh) n rows

/-! ### Normalizer lemmas -/

theorem hasKey_dset_self {α β : Type} [DecidableEq α] (d : List (α × β)) (k : α) (v : β) :
    hasKey (dset d k v) k = true := by
  simp [hasKey, dget_dset_self]

theorem hasKey_dset_ne {α β : Type} [DecidableEq α] (d : List (α × β)) (k k₂ : α) (v : β)
    (h : k₂ ≠ k) : hasKey (dset d k v) k₂ = hasKey d k₂ := by
  simp [hasKey, dget_dset_ne _ _ _ _ h]

theorem dget_id_normReqRow (fresh : Nat → String) (n : Nat) (r : Rec) :
    dget (normReqRow fresh n r).1 "id" =
      if hasKey r "id" then dget r "id" else some (.vStr (fresh n)) := by
  unfold normReqRow ensureId reqDefaults
  by_cases h1 : hasKey r "id" <;>
    simp only [h1, if_true, if_false, Bool.false_eq_true] <;>
  · split <;> split <;>
      simp [dget_dset_ne _ _ _ _ (by decide : ("id" : String) ≠ "ps_number"),
            dget_dset_ne _ _ _ _ (by decide : ("id" : String) ≠ "status"),
            dget_dset_self]

theorem counter_normReqRow (fresh : Nat → String) (n : Nat) (r : Rec) :
    (normReqRow fresh n r).2.1 = if hasKey r "id" then n else n + 1 := by
  unfold normReqRow ensureId
  by_cases h1 : hasKey r "id" <;> simp [h1]

theorem dget_ensureId_ne (fresh : Nat → String) (n : Nat) (r : Rec) (k : String)
    (h : k ≠ "id") : dget (ensureId fresh n r).1 k = dget r k := by
  unfold ensureId
  split <;> simp [dget_dset_ne _ _ _ _ h]

theorem dget_stockQuantityStep_ne (rc : Rec × Bool) (k : String)
    (h : k ≠ "quantity") : dget (stockQuantityStep rc).1 k = dget rc.1 k := by
  unfold stockQuantityStep
  split
  · split <;> simp [dget_dset_ne _ _ _ _ h]
  · simp [dget_dset_ne _ _ _ _ h]

theorem dget_stockProjectStep_ne (rc : Rec × Bool) (k : String)
    (h : k ≠ "project") : dget (stockProjectStep rc).1 k = dget rc.1 k := by
  unfold stockProjectStep
  split <;> simp [dget_dset_ne _ _ _ _ h]

theorem dget_stockQuantityStep_quantity (rc : Rec × Bool) :
    dget (stockQuantityStep rc).1 "quantity" =
      some (.vInt (((dget rc.1 "quantity").bind pyIntV).getD 0)) := by
  unfold stockQuantityStep
  by_cases h : hasKey rc.1 "quantity"
  · have h' := h
    unfold hasKey at h'
    obtain ⟨v, hv⟩ := Option.isSome_iff_exists.mp h'
    cases hpi : pyIntV v <;> simp [h, hv, hpi, dget_dset_self]
  · have h' : dget rc.1 "quantity" = none := by
      unfold hasKey at h
      exact Option.eq_none_iff_forall_not_mem.mpr
        (by simpa [Option.isSome_iff_exists] using h)
    simp [h, h', dget_dset_self]

theorem dget_stockProjectStep_project (rc : Rec × Bool) :
    dget (stockProjectStep rc).1 "project" =
      (match dget rc.1 "project" with
       | some (.vStr s) => some (.vStr (pyUpper (pyStrip s)))
       | v => v) := by
  unfold stockProjectStep
  cases hv : dget rc.1 "project" with
  | none => simp [hv]
  | some v => cases v <;> simp [hv, dget_dset_self]

theorem dget_id_normStockRow (fresh : Nat → String) (n : Nat) (r : Rec) :
    dget (normStockRow fresh n r).1 "id" =
      if hasKey r "id" then dget r "id" else some (.vStr (fresh n)) := by
  unfold normStockRow stockDefaults
  rw [dget_stockProjectStep_ne _ _ (by decide),
      dget_stockQuantityStep_ne _ _ (by decide)]
  unfold ensureId
  by_cases h1 : hasKey r "id" <;> simp [h1, dget_dset_self]

theorem counter_normStockRow (fresh : Nat → String) (n : Nat) (r : Rec) :
    (normStockRow fresh n r).2.1 = if hasKey r "id" then n else n + 1 := by
  unfold normStockRow ensureId
  by_cases h1 : hasKey r "id" <;> simp [h1]

/-- After one pass of the request-row body, all three required keys are
present. -/
theorem keys_normReqRow (fresh : Nat → String) (n : Nat) (r : Rec) :
    hasKey (normReqRow fresh n r).1 "id" = true ∧
    hasKey (normReqRow fresh n r).1 "status" = true ∧
    hasKey (normReqRow fresh n r).1 "ps_number" = true := by
  unfold normReqRow ensureId reqDefaults
  by_cases h1 : hasKey r "id" <;>
    simp only [h1, if_true, if_false, Bool.false_eq_true] <;>
  · split <;> split <;>
      simp_all [hasKey_dset_ne _ _ _ _ (by decide : ("id" : String) ≠ "ps_number"),
            hasKey_dset_ne _ _ _ _ (by decide : ("id" : String) ≠ "status"),
            hasKey_dset_ne _ _ _ _ (by decide : ("status" : String) ≠ "ps_number"),
            hasKey_dset_ne _ _ _ _ (by decide : ("ps_number" : String) ≠ "status"),
            hasKey_dset_self]

/-- Request-row body on an already-normalized row: identity, no change. -/
theorem normReqRow_eq_self (fresh : Nat → String) (n : Nat) (r : Rec)
    (h1 : hasKey r "id" = true) (h2 : hasKey r "status" = true)
    (h3 : hasKey r "ps_number" = true) :
    normReqRow fresh n r = (r, n, false) := by
  unfold normReqRow ensureId reqDefaults
  simp [h1, h2, h3]

/-- Absent `status` defaults to `"Pending"`, absent `ps_number` to
`"unknown"`. -/
theorem defaults_normReqRow (fresh : Nat → String) (n : Nat) (r : Rec) :
    (hasKey r "status" = false →
      dget (normReqRow fresh n r).1 "status" = some (.vStr "Pending")) ∧
    (hasKey r "ps_number" = false →
      dget (normReqRow fresh n r).1 "ps_number" = some (.vStr "unknown")) := by
  unfold normReqRow ensureId reqDefaults
  constructor <;> intro h <;>
    by_cases h1 : hasKey r "id" <;>
    by_cases h2 : hasKey r "status" <;>
    by_cases h3 : hasKey r "ps_number" <;>
      simp_all [hasKey_dset_ne _ _ _ _ (by decide : ("status" : String) ≠ "id"),
            hasKey_dset_ne _ _ _ _ (by decide : ("ps_number" : String) ≠ "id"),
            hasKey_dset_ne _ _ _ _ (by decide : ("ps_number" : String) ≠ "status"),
            dget_dset_ne _ _ _ _ (by decide : ("status" : String) ≠ "ps_number"),
            dget_dset_ne _ _ _ _ (by decide : ("status" : String) ≠ "id"),
            dget_dset_ne _ _ _ _ (by decide : ("ps_number" : String) ≠ "id"),
            dget_dset_self]

theorem dropWhile_map {α β : Type} (f : α → β) (p : β → Bool) (l : List α) :
    (l.map f).dropWhile p = (l.dropWhile (fun a => p (f a))).map f := by
  induction l with
  | nil => rfl
  | cons a t ih =>
    by_cases h : p (f a)
    · simp [List.dropWhile, h, ih]
    · simp [List.dropWhile, h]

theorem stripList_map_upChar (l : List Char) :
    stripList ((stripList l).map upChar) = (stripList l).map upChar := by
  have hfun : (fun a => isPySpace (upChar a)) = isPySpace := by
    funext a; exact isPySpace_upChar a
  have h1 : ((stripList l).map upChar).dropWhile isPySpace =
      (stripList l).map upChar := by
    rw [dropWhile_map, hfun, stripList_dropWhile]
  have h2 : ((stripList l).map upChar).reverse.dropWhile isPySpace =
      ((stripList l).map upChar).reverse := by
    rw [← List.map_reverse, dropWhile_map, hfun, stripList_reverse_dropWhile]
  show ((((stripList l).map upChar).dropWhile
      isPySpace).reverse.dropWhile isPySpace).reverse = (stripList l).map upChar
  rw [h1, h2, List.reverse_reverse]

/-- `s.strip().upper()` is a fixed point of itself: normalizing an
already-normalized project label changes nothing. -/
theorem pyUpperStrip_idem (s : String) :
    pyUpper (pyStrip (pyUpper (pyStrip s))) = pyUpper (pyStrip s) := by
  have hu : upChar ∘ upChar = upChar := by
    funext c; exact upChar_idem c
  show String.mk ((stripList ((stripList s.data).map upChar)).map upChar) =
    String.mk ((stripList s.data).map upChar)
  rw [stripList_map_upChar, List.map_map, hu]

/-- After one pass of the stock-row body, `quantity` is an integer:
`0` when absent or invalid, the coercion result otherwise. -/
theorem quantity_normStockRow (fresh : Nat → String) (n : Nat) (r : Rec) :
    dget (normStockRow fresh n r).1 "quantity" =
      some (.vInt (((dget r "quantity").bind pyIntV).getD 0)) := by
  unfold normStockRow stockDefaults
  rw [dget_stockProjectStep_ne _ _ (by decide), dget_stockQuantityStep_quantity,
      dget_ensureId_ne _ _ _ _ (by decide)]

/-- After one pass of the stock-row body, the project label (when it was a
string) is the upper-cased stripped original, and non-string / absent
projects are untouched. -/
theorem project_normStockRow (fresh : Nat → String) (n : Nat) (r : Rec) :
    dget (normStockRow fresh n r).1 "project" =
      (match dget r "project" with
       | some (.vStr s) => some (.vStr (pyUpper (pyStrip s)))
       | v => v) := by
  unfold normStockRow stockDefaults
  rw [dget_stockProjectStep_project, dget_stockQuantityStep_ne _ _ (by decide),
      dget_ensureId_ne _ _ _ _ (by decide)]

/-- Stock-row body on an already-normalized row: identity, no change. -/
theorem normStockRow_eq_self (fresh : Nat → String) (n : Nat) (r : Rec)
    (h1 : hasKey r "id" = true)
    (h2 : ∃ k : Int, dget r "quantity" = some (.vInt k))
    (h3 : ∀ s, dget r "project" = some (.vStr s) → pyUpper (pyStrip s) = s) :
    normStockRow fresh n r = (r, n, false) := by
  obtain ⟨k, hk⟩ := h2
  unfold normStockRow stockDefaults stockQuantityStep stockProjectStep ensureId
  have hhk : hasKey r "quantity" = true := by simp [hasKey, hk]
  simp only [h1, if_true, hhk, hk, Option.getD_some, pyIntV,
    dset_eq_of_dget r "quantity" (.vInt k) hk]
  split
  · rename_i s hs
    rw [h3 s hs, dset_eq_of_dget r "project" (.vStr s) hs]
  · rfl

/-- If the body fixes every row of the collection, the whole pass is the
identity with `changed = false` (so no write-back happens). -/
theorem normListAux_eq_self (step : Nat → Rec → Rec × Nat × Bool)
    (rows : List Rec) (h : ∀ r ∈ rows, ∀ n, step n r = (r, n, false)) (n : Nat) :
    normListAux step n rows = (rows, n, false) := by
  induction rows generalizing n with
  | nil => rfl
  | cons r rs ih =>
    have hr := h r (by simp) n
    have ih' := ih (fun r' hr' n' => h r' (by simp [hr']) n') n
    simp [normListAux, hr, ih']

/-- Every output row of a normalizer pass is the body applied to some
input row (at some counter position). -/
theorem mem_normListAux (step : Nat → Rec → Rec × Nat × Bool)
    (rows : List Rec) (n : Nat) (r' : Rec)
    (h : r' ∈ (normListAux step n rows).1) :
    ∃ r ∈ rows, ∃ m, r' = (step m r).1 := by
  induction rows generalizing n with
  | nil => simp [normListAux] at h
  | cons r rs ih =>
    simp only [normListAux, List.mem_cons] at h
    rcases h with h | h
    · exact ⟨r, by simp, n, h⟩
    · obtain ⟨r2, hr2, m, hm⟩ := ih _ h
      exact ⟨r2, by simp [hr2], m, hm⟩

/-- Where the identifiers of a pass's output come from: either an input
row that already had one, or the fresh stream within the window of
counter positions consumed by this pass. -/
theorem normListAux_id_mem (step : Nat → Rec → Rec × Nat × Bool)
    (fresh : Nat → String)
    (hid : ∀ n r, dget (step n r).1 "id" =
      if hasKey r "id" then dget r "id" else some (.vStr (fresh n)))
    (hcnt : ∀ n r, (step n r).2.1 = if hasKey r "id" then n else n + 1)
    (rows : List Rec) (n : Nat) (x : Option Value)
    (h : x ∈ (normListAux step n rows).1.map (fun r => dget r "id")) :
    (∃ r ∈ rows, hasKey r "id" = true ∧ dget r "id" = x) ∨
    (∃ i, n ≤ i ∧ i < n + rows.length ∧ x = some (.vStr (fresh i))) := by
  induction rows generalizing n with
  | nil => simp [normListAux] at h
  | cons r rs ih =>
    simp only [normListAux, List.map_cons, List.mem_cons] at h
    rcases h with h | h
    · rw [hid n r] at h
      by_cases hk : hasKey r "id"
      · rw [if_pos hk] at h
        exact Or.inl ⟨r, by simp, hk, h.symm⟩
      · rw [if_neg hk] at h
        exact Or.inr ⟨n, Nat.le_refl n,
          by simp only [List.length_cons]; omega, h⟩
    · have hn1 : (step n r).2.1 = n ∨ (step n r).2.1 = n + 1 := by
        rw [hcnt n r]; split <;> simp
      rcases ih (step n r).2.1 h with ⟨r2, hr2, hk2, hx⟩ | ⟨i, hi1, hi2, hx⟩
      · exact Or.inl ⟨r2, by simp [hr2], hk2, hx⟩
      · refine Or.inr ⟨i, ?_, ?_, hx⟩
        · rcases hn1 with h1 | h1 <;> rw [h1] at hi1 <;> omega
        · rcases hn1 with h1 | h1 <;> rw [h1] at hi2 <;>
            simp only [List.length_cons] <;> omega

/-- Identifier uniqueness of one normalizer pass: if the pre-existing
identifiers are pairwise distinct, and the fresh-id stream positions this
pass can consume are pairwise distinct and disjoint from the pre-existing
identifiers, then after the pass all rows carry pairwise distinct
identifiers. -/
theorem normListAux_ids_nodup (step : Nat → Rec → Rec × Nat × Bool)
    (fresh : Nat → String)
    (hid : ∀ n r, dget (step n r).1 "id" =
      if hasKey r "id" then dget r "id" else some (.vStr (fresh n)))
    (hcnt : ∀ n r, (step n r).2.1 = if hasKey r "id" then n else n + 1)
    (rows : List Rec) (n : Nat)
    (hdup : (rows.filterMap (fun r => dget r "id")).Nodup)
    (hdisj : ∀ r ∈ rows, ∀ i, i < rows.length →
      ¬ dget r "id" = some (.vStr (fresh (n + i))))
    (hinj : ∀ i, i < rows.length → ∀ j, j < rows.length →
      fresh (n + i) = fresh (n + j) → i = j) :
    ((normListAux step n rows).1.map (fun r => dget r "id")).Nodup := by
  induction rows generalizing n with
  | nil => simp [normListAux]
  | cons r rs ih =>
    simp only [normListAux, List.map_cons, List.nodup_cons]
    constructor
    · -- the head identifier does not reappear in the tail
      intro hmem
      rcases normListAux_id_mem step fresh hid hcnt rs (step n r).2.1 _ hmem with
        ⟨r2, hr2, hk2, hx⟩ | ⟨i, hi1, hi2, hx⟩
      · -- a later input row carries the same identifier
        rw [hid n r] at hx
        by_cases hk : hasKey r "id"
        · rw [if_pos hk] at hx
          -- contradicts distinctness of the pre-existing identifiers
          obtain ⟨v, hv⟩ := Option.isSome_iff_exists.mp hk
          have hcons : (r :: rs).filterMap (fun r => dget r "id") =
              v :: rs.filterMap (fun r => dget r "id") := by
            simp [List.filterMap_cons, hv]
          rw [hcons] at hdup
          have hvtl : v ∈ rs.filterMap (fun r => dget r "id") :=
            List.mem_filterMap.mpr ⟨r2, hr2, by rw [hx, hv]⟩
          exact (List.nodup_cons.mp hdup).1 hvtl
        · rw [if_neg hk] at hx
          -- a pre-existing identifier equals a fresh one: contradicts hdisj
          exact hdisj r2 (List.mem_cons_of_mem r hr2) 0
            (by simp only [List.length_cons]; omega)
            (by rw [Nat.add_zero]; exact hx)
      · -- the head identifier collides with a later fresh identifier
        rw [hid n r] at hx
        by_cases hk : hasKey r "id"
        · rw [if_pos hk] at hx
          have h1 : (step n r).2.1 = n := by rw [hcnt n r, if_pos hk]
          rw [h1] at hi1 hi2
          exact hdisj r (List.mem_cons_self r rs) (i - n)
            (by simp only [List.length_cons]; omega)
            (by rw [show n + (i - n) = i from by omega]; exact hx)
        · rw [if_neg hk] at hx
          have h1 : (step n r).2.1 = n + 1 := by rw [hcnt n r, if_neg hk]
          rw [h1] at hi1 hi2
          have hfx : fresh n = fresh i := by
            injection hx with h2
            injection h2
          have := hinj 0 (by simp only [List.length_cons]; omega)
            (i - n) (by simp only [List.length_cons]; omega)
            (by rw [Nat.add_zero, show n + (i - n) = i from by omega]
                exact hfx)
          omega
    · -- the tail is nodup, by the inductive hypothesis at the new counter
      apply ih (step n r).2.1
      · by_cases hk : hasKey r "id"
        · obtain ⟨v, hv⟩ := Option.isSome_iff_exists.mp hk
          have hcons : (r :: rs).filterMap (fun r => dget r "id") =
              v :: rs.filterMap (fun r => dget r "id") := by
            simp [List.filterMap_cons, hv]
          rw [hcons] at hdup
          exact (List.nodup_cons.mp hdup).2
        · have hv : dget r "id" = none := by
            unfold hasKey at hk
            exact Option.eq_none_iff_forall_not_mem.mpr
              (by simpa [Option.isSome_iff_exists] using hk)
          have hcons : (r :: rs).filterMap (fun r => dget r "id") =
              rs.filterMap (fun r => dget r "id") := by
            simp [List.filterMap_cons, hv]
          rwa [hcons] at hdup
      · intro r2 hr2 i hi
        by_cases hk : hasKey r "id"
        · rw [hcnt n r, if_pos hk]
          exact hdisj r2 (List.mem_cons_of_mem r hr2) i
            (by simp only [List.length_cons]; omega)
        · rw [hcnt n r, if_neg hk,
              show n + 1 + i = n + (i + 1) from by omega]
          exact hdisj r2 (List.mem_cons_of_mem r hr2) (i + 1)
            (by simp only [List.length_cons]; omega)
      · intro i hi j hj hf
        by_cases hk : hasKey r "id"
        · rw [hcnt n r, if_pos hk] at hf
          exact hinj i (by simp only [List.length_cons]; omega)
            j (by simp only [List.length_cons]; omega) hf
        · rw [hcnt n r, if_neg hk,
              show n + 1 + i = n + (i + 1) from by omega,
              show n + 1 + j = n + (j + 1) from by omega] at hf
          have := hinj (i + 1) (by simp only [List.length_cons]; omega)
            (j + 1) (by simp only [List.length_cons]; omega) hf
          omega

/-! ## Request persistence (`persist_requests`)

The remote upsert is a single network call whose three possible outcomes
are modelled by `Remote`; the function's observable behaviour is the new
contents of `requests.json` plus the returned
`{saved, synced, error}` dictionary. -/

/-- Outcome of the remote leg of `persist_requests`. -/
inductive Remote where
  | noClient : Remote
  | ok : Remote
  | fails (msg : String) : Remote
deriving DecidableEq, Repr

/-- The observable result of `persist_requests`: the rewritten local
collection (what `save_json` wrote, or the untouched previous contents on
the empty-input early return) and the returned summary dictionary. -/
structure PersistOut where
  localFile : List Rec
  saved : Nat
  synced : Nat
  error : Option String
deriving DecidableEq, Repr

/-- `str(row.get("id", "")).strip()`: the identifier key under which an
existing local row is indexed. -/
def ridOf (row : Rec) : String :=
  pyStrip (pyStr ((dget row "id").getD (.vStr "")))

/-- `str(item.get("id") or "").strip()`: falsy identifiers (absent, None,
empty string, 0, …) collapse to the empty string. -/
def ridTruthy (item : Rec) : String :=
  let v := (dget item "id").getD .vNull
  pyStrip (pyStr (if pyTruthy v then v else .vStr ""))

/-- Normalization of one incoming record inside the `persist_requests`
loop: force a non-blank identifier (minting a fresh one if needed),
default `status`/`ps_number`, and coerce `quantity` to `int` when
possible (silently keeping it otherwise).  Returns the item, its
identifier, and the next fresh-stream position. -/
def persistItem (fresh : Nat → String) (n : Nat) (rec : Rec) :
    Rec × String × Nat :=
  let s := ridTruthy rec
  let rid := if s = "" then fresh n else s
  let n' := if s = "" then n + 1 else n
  let item := dset rec "id" (.vStr rid)
  let item := dsetdefault item "status" (.vStr "Pending")
  let item := dsetdefault item "ps_number" (.vStr "unknown")
  let item :=
    if hasKey item "quantity" then
      match pyIntV ((dget item "quantity").getD .vNull) with
      | some k => dset item "quantity" (.vInt k)
      | none => item
    else item
  (item, rid, n')

/-- The eight-field projection appended to the upsert payload for each
record (`item.get(k)` yields null for absent keys). -/
def reqPayload (item : Rec) : Rec :=
  [("id", (dget item "id").getD .vNull),
   ("school_id", (dget item "school_id").getD .vNull),
   ("category", (dget item "category").getD .vNull),
   ("material", (dget item "material").getD .vNull),
   ("quantity", (dget item "quantity").getD .vNull),
   ("date", (dget item "date").getD .vNull),
   ("ps_number", (dget item "ps_number").getD .vNull),
   ("status", (dget item "status").getD .vNull)]

/-- The fold of the `by_id` construction loop of `persist_requests`:
rows with a blank identifier are silently not indexed. -/
def persistInitAux : List (String × Rec) → List Rec → List (String × Rec)
  | d, [] => d
  | d, row :: rest =>
    if ridOf row = "" then persistInitAux d rest
    else persistInitAux (dset d (ridOf row) row) rest

/-- `by_id = {}` then `for row in existing: rid = str(row.get("id", ""))
.strip(); if rid: by_id[rid] = row`. -/
def persistInit (existing : List Rec) : List (String × Rec) :=
  persistInitAux [] existing

/-- The main loop of `persist_requests`: merge each normalized item into
`by_id` and append its payload row.  Returns the final dictionary, the
payload, and the next fresh-stream position. -/
def persistLoop (fresh : Nat → String) :
    Nat → List (String × Rec) → List Rec →
    List (String × Rec) × List Rec × Nat
  | n, d, [] => (d, [], n)
  | n, d, rec :: rest =>
    let a := persistItem fresh n rec
    let out := persistLoop fresh a.2.2 (dset d a.2.1 a.1) rest
    (out.1, reqPayload a.1 :: out.2.1, out.2.2)

/-- `persist_requests(records)`.  The local collection is loaded, merged
by identifier, and saved *before* the remote upsert is attempted; the
returned summary is `{saved, synced, error}`. -/
def persist_requests (fresh : Nat → String) (n : Nat) (remote : Remote)
    (existing : List Rec) (records : List Rec) : PersistOut :=
  if records = [] then ⟨existing, 0, 0, none⟩
  else
    let out := persistLoop fresh n (persistInit existing) records
    let newLocal := dvalues out.1
    let payload := out.2.1
    match remote with
    | .noClient => ⟨newLocal, records.length, 0, none⟩
    | .ok =>
      ⟨newLocal, records.length, if payload = [] then 0 else payload.length, none⟩
    | .fails msg =>
      if payload = [] then ⟨newLocal, records.length, 0, none⟩
      else ⟨newLocal, records.length, 0, some msg⟩

/-! ## Authorization gate (`list_user_schools`) -/

/-- Python `v in xs` for the `coaches` membership test.  In the data
model `coaches` is always a list of PS-number strings; non-list
containers (which would raise `TypeError` in Python) are mapped to
`false`. -/
def pyInList (v : Value) (container : Value) : Bool :=
  match container with
  | .vStrList xs =>
    match v with
    | .vStr p => decide (p ∈ xs)
    | _ => false
  | _ => false

/-- `list_user_schools(user, schools)`: everything for an Admin,
otherwise only the schools whose `coaches` list contains the user's
`ps_number`. -/
def list_user_schools (user : Rec) (schools : List Rec) : List Rec :=
  if dget user "credential" = some (.vStr "Admin") then schools
  else schools.filter (fun s =>
    pyInList ((dget user "ps_number").getD .vNull)
      ((dget s "coaches").getD (.vStrList [])))

/-! ## Manage Requests: pending/finalized split and the Save Changes path -/

/-- `str(r.get("status", "")).lower()`. -/
def statusOf (r : Rec) : String :=
  pyLower (pyStr ((dget r "status").getD (.vStr "")))

/-- Whether a request row is editable. -/
def isPending (r : Rec) : Bool := statusOf r == "pending"

/-- The editable set shown in the "Pending Requests" grid. -/
def pendingOf (rows : List Rec) : List Rec := rows.filter isPending

/-- The read-only set shown in the "Non-Pending Requests" table. -/
def finalizedOf (rows : List Rec) : List Rec :=
  rows.filter (fun r => !(isPending r))

/-- The fields the Save Changes handler copies from an edited grid row;
`date` is never copied, and `status` only for an Admin. -/
def editKeys (admin : Bool) : List String :=
  if admin then ["school_id", "category", "material", "quantity", "status"]
  else ["school_id", "category", "material", "quantity"]

/-- `for k in keys: if k in er: by_id[rid][k] = er[k]`. -/
def applyEdit (admin : Bool) (er target : Rec) : Rec :=
  (editKeys admin).foldl (fun t k =>
    match dget er k with
    | some v => dset t k v
    | none => t) target

/-- `by_id = {r["id"]: r for r in rows}` — `none` models the `KeyError`
raised when a row has no `id`. -/
def buildById : List (Value × Rec) → List Rec → Option (List (Value × Rec))
  | d, [] => some d
  | d, r :: rs =>
    match dget r "id" with
    | none => none
    | some idv => buildById (dset d idv r) rs

/-- `list.enum` with an explicit start index (`enumerate` over the edited
grid rows, which mirror the pending list positionally). -/
def enumFrom {α : Type} (i : Nat) : List α → List (Nat × α)
  | [] => []
  | a :: as => (i, a) :: enumFrom (i + 1) as

/-- The Save Changes loop: for each edited row, look up the pending row at
the same position, then update the full collection entry with that row's
identifier.  `none` models an uncaught `IndexError`/`KeyError`. -/
def saveChangesAux (admin : Bool) (pend : List Rec) :
    List (Value × Rec) → List (Nat × Rec) → Option (List (Value × Rec))
  | d, [] => some d
  | d, (i, er) :: rest =>
    match pend.get? i with
    | none => none
    | some p =>
      match dget p "id" with
      | none => none
      | some rid =>
        let d' :=
          match dget d rid with
          | some tgt => dset d rid (applyEdit admin er tgt)
          | none => d
        saveChangesAux admin pend d' rest

/-- The Save Changes handler of Manage Requests: rebuild `by_id` from the
loaded rows, apply the edited pending grid, and save `list(by_id
.values())` back as the whole collection. -/
def saveChanges (admin : Bool) (rows edits : List Rec) : Option (List Rec) :=
  match buildById [] rows with
  | none => none
  | some d0 =>
    (saveChangesAux admin (pendingOf rows) d0 (enumFrom 0 edits)).map dvalues

/-! ## Sync engine (`sync_local_to_supabase`, `pull_supabase_to_local`)

Each table's interaction with the outside world (the local file's parse
outcome and the success of each remote call) is an environment
`TableEnv`; the push pass folds over the table list, producing one
`TableResult` per table unless an *uncaught* exception aborts the whole
pass. -/

/-- One element of a parsed local JSON array: a record or a non-`dict`
value (skipped by the shaping loop). -/
inductive FileItem where
  | obj (r : Rec) : FileItem
  | other : FileItem
deriving DecidableEq, Repr

/-- The state of one table's local JSON file. -/
inductive FileState where
  | missing : FileState
  | badJson : FileState
  | jlist (items : List FileItem) : FileState
  | nonList : FileState
deriving DecidableEq, Repr

/-- The `allowed_fields` table (identical in push and pull). -/
def allowed_fields (t : String) : Option (List String) :=
  if t = "users" then some ["ps_number", "password", "credential", "name"]
  else if t = "schools" then some ["id", "nome", "city", "coaches"]
  else if t = "materials" then some ["category", "subcategory", "item"]
  else if t = "requests" then
    some ["id", "school_id", "category", "material", "quantity", "date",
          "ps_number", "status"]
  else if t = "stock_kimonos" then
    some ["id", "school_id", "project", "type", "size", "quantity"]
  else none

/-- The `conflict_targets` table (no entry for `materials`). -/
def conflict_targets (t : String) : Option String :=
  if t = "users" then some "ps_number"
  else if t = "schools" then some "id"
  else if t = "requests" then some "id"
  else if t = "stock_kimonos" then some "id"
  else none

/-- The per-table delete key of the replace-mode clear (note: unlike
`conflict_targets` it has an entry for `materials` and none for
`stock_kimonos`). -/
def clearKey (t : String) : Option String :=
  if t = "users" then some "ps_number"
  else if t = "schools" then some "id"
  else if t = "materials" then some "category"
  else if t = "requests" then some "id"
  else none

/-- `{k: v for k, v in row.items() if k in cols}`. -/
def filterKeys (row : Rec) (cols : List String) : Rec :=
  row.filter (fun kv => decide (kv.1 ∈ cols))

/-- Projection of one record plus the `requests` quantity coercion, as in
the push shaping loop. -/
def shapeCore (t : String) (cols : List String) (row : Rec) : Rec :=
  let sr := filterKeys row cols
  if t = "requests" ∧ hasKey sr "quantity" then
    match pyIntV ((dget sr "quantity").getD .vNull) with
    | some k => dset sr "quantity" (.vInt k)
    | none => sr
  else sr

/-- The push-leg shaping of one record.  (The dead `coaches` special case
of the source loop is unreachable — no synced table is named `coaches` —
and is not modelled.) -/
def shapeRowPush (t : String) (row : Rec) : Rec :=
  match allowed_fields t with
  | none => row
  | some cols => shapeCore t cols row

/-- The push shaping of a whole parsed file: tables with a declared field
list keep only their `dict` rows, projected; others pass through. -/
def shapeRows (t : String) (items : List FileItem) : List FileItem :=
  match allowed_fields t with
  | none => items
  | some cols =>
    items.filterMap (fun it =>
      match it with
      | .obj row => some (.obj (shapeCore t cols row))
      | .other => none)

/-- The reduced `{ps_number, password, credential}` rows mirrored into the
`coaches` table when syncing `users` (rows with a falsy `ps_number` are
dropped). -/
def mirrorRows (shaped : List FileItem) : List Rec :=
  shaped.filterMap (fun it =>
    match it with
    | .obj r =>
      if pyTruthy ((dget r "ps_number").getD .vNull) then
        some [("ps_number", (dget r "ps_number").getD .vNull),
              ("password", (dget r "password").getD .vNull),
              ("credential", (dget r "credential").getD (.vStr "Coach"))]
      else none
    | .other => none)

/-- The environment one table's sync step runs against: its name, its
local file, the outcome of the remote existence check (`none` = the
`select` raised), and whether each remote call / file removal succeeds. -/
structure TableEnv where
  name : String
  file : FileState
  check : Option Nat
  upsertOk : Bool
  clearOk : Bool
  mirrorOk : Bool
  removeOk : Bool
deriving DecidableEq, Repr

/-- How one table's step ended. -/
inductive Outcome where
  | notFound : Outcome
  | skipped : Outcome
  | badFormat : Outcome
  | synced : Outcome
  | errored : Outcome
deriving DecidableEq, Repr

/-- The observable effects of one table's push step. -/
structure TableResult where
  outcome : Outcome
  clearAttempted : Bool
  upsertAttempted : Bool
  upsertOk : Bool
  localDeleted : Bool
  mirrorAttempted : Bool
deriving DecidableEq, Repr

/-- One table of the push pass.  `ft0` is the current binding of the
Python local `first_time_sync`, which leaks across loop iterations and is
unbound (`none`) until the first successful existence check; using it
unbound raises `NameError`, caught by the surrounding handler.  The
function returns `none` exactly when the *unguarded* `json.load` raises,
which propagates out of the whole sync. -/
def syncTable (force replace : Bool) (ft0 : Option Bool) (env : TableEnv) :
    Option (TableResult × Option Bool) :=
  if env.file = .missing then
    some (⟨.notFound, false, false, false, false, false⟩, ft0)
  else
    let ft1 : Option Bool :=
      match env.check with
      | some cnt => some (decide (cnt = 0) && !force && !replace)
      | none => ft0
    let skip : Bool :=
      match env.check with
      | some cnt => !force && decide (0 < cnt)
      | none => false
    if skip then some (⟨.skipped, false, false, false, false, false⟩, ft1)
    else
      match env.file with
      | .missing => none
      | .badJson => none
      | .nonList => some (⟨.badFormat, false, false, false, false, false⟩, ft1)
      | .jlist items =>
        let shaped := shapeRows env.name items
        let cleared := replace && (clearKey env.name).isSome
        if env.upsertOk = false then
          some (⟨.errored, cleared, true, false, false, false⟩, ft1)
        else
          match ft1 with
          | none =>
            -- `if first_time_sync:` raises NameError, caught by the
            -- outer per-table handler after the upsert already counted
            some (⟨.errored, cleared, true, true, false, false⟩, ft1)
          | some ftv =>
            let ldel := ftv && env.removeOk
            let mir := env.name = "users" && !(mirrorRows shaped).isEmpty
            some (⟨.synced, cleared, true, true, ldel, mir⟩, ft1)

instance {ε α : Type} [DecidableEq ε] [DecidableEq α] : DecidableEq (Except ε α) :=
  fun x y =>
  match x, y with
  | .ok a, .ok b =>
    if h : a = b then .isTrue (congrArg Except.ok h)
    else .isFalse (fun hh => h (Except.ok.inj hh))
  | .error a, .error b =>
    if h : a = b then .isTrue (congrArg Except.error h)
    else .isFalse (fun hh => h (Except.error.inj hh))
  | .ok _, .error _ => .isFalse (fun hh => Except.noConfusion hh)
  | .error _, .ok _ => .isFalse (fun hh => Except.noConfusion hh)

/-- The fold of the push pass over all tables.  `Except.error` carries
the results of the tables processed before an uncaught exception aborted
the pass (the aborting table and everything after it produce nothing). -/
def syncAllAux (force replace : Bool) (ft : Option Bool) :
    List TableEnv → Except (List TableResult) (List TableResult)
  | [] => .ok []
  | e :: es =>
    match syncTable force replace ft e with
    | none => .error []
    | some (res, ft') =>
      match syncAllAux force replace ft' es with
      | .ok rest => .ok (res :: rest)
      | .error rest => .error (res :: rest)

/-- `sync_local_to_supabase(force, replace)` over a list of table
environments. -/
def sync_local_to_supabase (force replace : Bool) (tables : List TableEnv) :
    Except (List TableResult) (List TableResult) :=
  syncAllAux force replace none tables

/-- The results actually produced by a pass, whether or not it aborted. -/
def resultsOf : Except (List TableResult) (List TableResult) → List TableResult
  | .ok l => l
  | .error l => l

/-- The `replace` argument the Data Sync page passes to the sync: the
replace checkbox is only rendered (and so can only be true) when the
force checkbox is checked. -/
def uiReplace (force replaceCb : Bool) : Bool :=
  if force then replaceCb else false

/-- The pull-leg shaping of one remote row:
`{k: r.get(k) for k in cols}` — every allowed field is materialized,
absent ones as null. -/
def pullShapeRow (t : String) (row : Rec) : Rec :=
  ((allowed_fields t).getD []).map (fun k => (k, (dget row k).getD .vNull))

/-- Extensional equality of two records as Python dicts: the same value
(or absence) at every key of either. -/
def recEqvB (a b : Rec) : Bool :=
  (a.map Prod.fst ++ b.map Prod.fst).all (fun k => decide (dget a k = dget b k))

/-! ## Claim C4: role-based school visibility -/

/-- C4: `list_user_schools` returns all schools for an Admin credential,
and otherwise exactly the schools whose `coaches` list contains the
user's `ps_number` — a Coach never receives a school whose `coaches`
list excludes their identifier. -/
theorem c4_list_user_schools_visibility (user : Rec) (schools : List Rec) :
    (dget user "credential" = some (.vStr "Admin") →
      list_user_schools user schools = schools) ∧
    (dget user "credential" ≠ some (.vStr "Admin") →
      ∀ s, s ∈ list_user_schools user schools ↔
        (s ∈ schools ∧
          pyInList ((dget user "ps_number").getD .vNull)
            ((dget s "coaches").getD (.vStrList [])) = true)) := by
  constructor
  · intro h
    unfold list_user_schools
    rw [if_pos h]
  · intro h s
    unfold list_user_schools
    rw [if_neg h]
    exact List.mem_filter

/-- Witness for C4 at concrete inputs: an Admin sees both schools, a
coach listed only at the first school sees exactly that one. -/
theorem c4_list_user_schools_visibility_witness :
    (list_user_schools [("credential", Value.vStr "Admin")]
      [[("id", Value.vStr "s1"), ("coaches", Value.vStrList ["PS2"])],
       [("id", Value.vStr "s2"), ("coaches", Value.vStrList [])]] =
      [[("id", Value.vStr "s1"), ("coaches", Value.vStrList ["PS2"])],
       [("id", Value.vStr "s2"), ("coaches", Value.vStrList [])]]) ∧
    ([("id", Value.vStr "s1"), ("coaches", Value.vStrList ["PS2"])] ∈
      list_user_schools
        [("credential", Value.vStr "Coach"), ("ps_number", Value.vStr "PS2")]
        [[("id", Value.vStr "s1"), ("coaches", Value.vStrList ["PS2"])],
         [("id", Value.vStr "s2"), ("coaches", Value.vStrList [])]]) ∧
    ([("id", Value.vStr "s2"), ("coaches", Value.vStrList [])] ∉
      list_user_schools
        [("credential", Value.vStr "Coach"), ("ps_number", Value.vStr "PS2")]
        [[("id", Value.vStr "s1"), ("coaches", Value.vStrList ["PS2"])],
         [("id", Value.vStr "s2"), ("coaches", Value.vStrList [])]]) := by
  refine ⟨?_, ?_, ?_⟩
  · exact (c4_list_user_schools_visibility _ _).1 (by decide)
  · exact ((c4_list_user_schools_visibility _ _).2 (by decide) _).mpr
      (by constructor <;> decide)
  · intro hmem
    have := ((c4_list_user_schools_visibility
      [("credential", Value.vStr "Coach"), ("ps_number", Value.vStr "PS2")]
      _).2 (by decide) _).mp hmem
    revert this
    decide

/-! ## Claim C6: first-check skip leaves everything untouched -/

/-- C6: a push of one table with `force = false` against a remote whose
existence check succeeds with at least one row ends as Skipped, with no
remote clear, upsert or mirror call, and with the local file intact. -/
theorem c6_sync_skip_frame (env : TableEnv) (cnt : Nat) (replace : Bool)
    (ft : Option Bool) (hf : env.file ≠ .missing) (hc : env.check = some cnt)
    (hpos : 0 < cnt) :
    syncTable false replace ft env =
      some (⟨.skipped, false, false, false, false, false⟩, some false) := by
  have h0 : decide (cnt = 0) = false := decide_eq_false (by omega)
  have h1 : decide (0 < cnt) = true := decide_eq_true hpos
  unfold syncTable
  rw [if_neg hf]
  simp [hc, h0, h1]

/-- Witness for C6: a `schools` table with one local row against a remote
that already holds a row is skipped untouched, in replace mode and not. -/
theorem c6_sync_skip_frame_witness :
    syncTable false true none
      ⟨"schools", .jlist [.obj [("id", Value.vStr "s1")]], some 1,
        true, true, true, true⟩ =
      some (⟨.skipped, false, false, false, false, false⟩, some false) ∧
    syncTable false false (some true)
      ⟨"schools", .jlist [.obj [("id", Value.vStr "s1")]], some 1,
        true, true, true, true⟩ =
      some (⟨.skipped, false, false, false, false, false⟩, some false) := by
  constructor
  · exact c6_sync_skip_frame _ 1 true none (by decide) (by decide) (by decide)
  · exact c6_sync_skip_frame _ 1 false (some true) (by decide) (by decide)
      (by decide)

/-! ## Claim C7: reachability of the replace-mode remote clear

The clear is guarded only by `replace` inside `sync_local_to_supabase`:
with `replace = true` and `force = false` it still runs whenever the
skip check does not fire (empty remote, or failed check).  Only the UI
wiring ties `replace` to `force`. -/

/-- Counterexample to C7 as stated: a sync invocation with
`force = false` and `replace = true` against an *empty* remote executes
the destructive clear for the `schools` table. -/
theorem c7_clear_counterexample :
    (syncTable false true none
      ⟨"schools", .jlist [.obj [("id", Value.vStr "s1")]], some 0,
        true, true, true, true⟩).map (fun p => p.1.clearAttempted) =
      some true ∧
    resultsOf (sync_local_to_supabase false true
      [⟨"schools", .jlist [.obj [("id", Value.vStr "s1")]], some 0,
        true, true, true, true⟩]) =
      [⟨.synced, true, true, true, false, false⟩] := by
  constructor <;> decide

theorem syncTable_no_replace_no_clear (force : Bool) (ft : Option Bool)
    (env : TableEnv) (p : TableResult × Option Bool)
    (h : syncTable force false ft env = some p) :
    p.1.clearAttempted = false := by
  obtain ⟨name, file, check, u, c, m, rm⟩ := env
  simp only [syncTable] at h
  repeat' split at h
  all_goals (cases h <;> simp)

/-- C7 amended: with `replace = false` no table of a push pass ever
reaches the remote clear; and the UI can only pass `replace = true`
together with `force = true` (the replace checkbox is rendered only when
force is checked). -/
theorem c7_clear_amended :
    (∀ (force : Bool) (ft : Option Bool) (tables : List TableEnv),
      ∀ res ∈ resultsOf (syncAllAux force false ft tables),
        res.clearAttempted = false) ∧
    (∀ forceCb replaceCb : Bool, uiReplace forceCb replaceCb = true →
      forceCb = true) := by
  constructor
  · intro force ft tables
    induction tables generalizing ft with
    | nil => intro res h; simp [syncAllAux, resultsOf] at h
    | cons e es ih =>
      intro res h
      unfold syncAllAux at h
      cases hp : syncTable force false ft e with
      | none => rw [hp] at h; simp [resultsOf] at h
      | some p =>
        obtain ⟨r0, ft'⟩ := p
        rw [hp] at h
        dsimp only at h
        cases hrest : syncAllAux force false ft' es with
        | ok rest =>
          rw [hrest] at h
          simp [resultsOf] at h
          rcases h with h | h
          · rw [h]
            exact syncTable_no_replace_no_clear force ft e (r0, ft') hp
          · exact ih ft' res (by rw [hrest]; simpa [resultsOf] using h)
        | error rest =>
          rw [hrest] at h
          simp [resultsOf] at h
          rcases h with h | h
          · rw [h]
            exact syncTable_no_replace_no_clear force ft e (r0, ft') hp
          · exact ih ft' res (by rw [hrest]; simpa [resultsOf] using h)
  · intro forceCb replaceCb h
    cases forceCb
    · simp [uiReplace] at h
    · rfl

/-- Witness for C7 amended: a force-only pass over a populated `schools`
environment clears nothing, and the UI replace flag implies force. -/
theorem c7_clear_amended_witness :
    (∀ res ∈ resultsOf (syncAllAux true false none
      [⟨"schools", .jlist [.obj [("id", Value.vStr "s1")]], some 0,
        true, true, true, true⟩,
       ⟨"requests", .jlist [.obj [("id", Value.vStr "r1")]], some 3,
        false, true, true, true⟩]),
      res.clearAttempted = false) ∧
    (uiReplace true true = true → (true : Bool) = true) := by
  exact ⟨fun res h => c7_clear_amended.1 true none _ res h,
    fun h => c7_clear_amended.2 true true h⟩

/-! ## Claim C5: per-table error isolation of the push pass

Exceptions from the remote existence check, the clear, the upsert, the
first-sync file removal and the users mirror are caught per table; but
the `json.load` of the table's local file is *outside* every handler, so
a parse error aborts the remaining tables. -/

/-- Counterexample to C5 as stated: with a first table whose local file
fails to parse and a perfectly healthy second table, the pass aborts
with no per-table report, while the second table alone would sync. -/
theorem c5_isolation_counterexample :
    sync_local_to_supabase false false
      [⟨"requests", .badJson, some 0, true, true, true, true⟩,
       ⟨"schools", .jlist [.obj [("id", Value.vStr "s1")]], some 0,
        true, true, true, true⟩] = .error [] ∧
    sync_local_to_supabase false false
      [⟨"schools", .jlist [.obj [("id", Value.vStr "s1")]], some 0,
        true, true, true, true⟩] =
      .ok [⟨.synced, false, true, true, true, false⟩] := by
  constructor <;> decide

theorem syncTable_isSome (force replace : Bool) (ft : Option Bool)
    (env : TableEnv) (h : env.file ≠ .badJson) :
    ∃ p, syncTable force replace ft env = some p := by
  obtain ⟨name, file, check, u, c, m, rm⟩ := env
  simp only [syncTable]
  repeat' split
  all_goals first
    | exact ⟨_, rfl⟩
    | simp_all

/-- C5 amended: when every table's local file parses, every table is
processed and reported — remote check/clear/upsert/mirror failures never
abort the pass; only a local parse error does. -/
theorem c5_isolation_amended (force replace : Bool) (tables : List TableEnv)
    (h : ∀ t ∈ tables, t.file ≠ .badJson) :
    ∃ l, sync_local_to_supabase force replace tables = .ok l ∧
      l.length = tables.length := by
  suffices haux : ∀ (ts : List TableEnv), (∀ t ∈ ts, t.file ≠ .badJson) →
      ∀ ft, ∃ l, syncAllAux force replace ft ts = .ok l ∧
        l.length = ts.length by
    exact haux tables h none
  intro ts hts
  induction ts with
  | nil => exact fun ft => ⟨[], rfl, rfl⟩
  | cons e es ih =>
    intro ft
    obtain ⟨p, hp⟩ := syncTable_isSome force replace ft e (hts e (by simp))
    obtain ⟨r0, ft'⟩ := p
    obtain ⟨l, hl, hlen⟩ := ih (fun t ht => hts t (by simp [ht])) ft'
    refine ⟨r0 :: l, ?_, by simp [hlen]⟩
    unfold syncAllAux
    rw [hp]
    dsimp only
    rw [hl]

/-- Witness for C5 amended: a pass where one table's remote check raises
and another's upsert raises still reports every table. -/
theorem c5_isolation_amended_witness :
    ∃ l, sync_local_to_supabase true false
      [⟨"users", .jlist [.obj [("ps_number", Value.vStr "PS1")]], none,
        true, true, false, true⟩,
       ⟨"schools", .jlist [.obj [("id", Value.vStr "s1")]], some 0,
        false, true, true, true⟩,
       ⟨"materials", .nonList, some 2, true, true, true, true⟩] = .ok l ∧
      l.length = 3 := by
  exact c5_isolation_amended true false _ (by decide)

/-! ## Claims C2 and C8: the Identity & Defaults Normalizers -/

/-- When the flag contributed by each row is independent of the counter,
the pass's `changed` flag is `any` of the per-row flags. -/
theorem normListAux_changed (step : Nat → Rec → Rec × Nat × Bool)
    (trigger : Rec → Bool) (h : ∀ n r, (step n r).2.2 = trigger r)
    (rows : List Rec) (n : Nat) :
    (normListAux step n rows).2.2 = rows.any trigger := by
  induction rows generalizing n with
  | nil => simp [normListAux]
  | cons r rs ih => simp [normListAux, h n r, ih]

/-- The `changed` flag contributed by one stock row: an absent `id`, an
absent `quantity`, or an `int()`-uncoercible `quantity` — successful
string coercions and project-label normalization do *not* raise it. -/
def stockChangedFlag (r : Rec) : Bool :=
  !hasKey r "id" ||
  (if hasKey r "quantity" then
    (pyIntV ((dget r "quantity").getD .vNull)).isNone
  else true)

theorem changed_normStockRow (fresh : Nat → String) (n : Nat) (r : Rec) :
    (normStockRow fresh n r).2.2 = stockChangedFlag r := by
  unfold normStockRow stockDefaults stockProjectStep stockQuantityStep
    ensureId stockChangedFlag
  by_cases h1 : hasKey r "id" <;> by_cases h2 : hasKey r "quantity" <;>
    simp only [h1, h2, if_true, if_false, Bool.false_eq_true,
      hasKey_dset_ne _ _ _ _ (by decide : ("quantity" : String) ≠ "id"),
      dget_dset_ne _ _ _ _ (by decide : ("quantity" : String) ≠ "id")] <;>
    repeat' split <;> simp_all

/-- The `changed` flag contributed by one request row: any of the three
keys absent. -/
def reqChangedFlag (r : Rec) : Bool :=
  !hasKey r "id" || !hasKey r "status" || !hasKey r "ps_number"

theorem changed_normReqRow (fresh : Nat → String) (n : Nat) (r : Rec) :
    (normReqRow fresh n r).2.2 = reqChangedFlag r := by
  unfold normReqRow reqDefaults ensureId reqChangedFlag
  by_cases h1 : hasKey r "id" <;> by_cases h2 : hasKey r "status" <;>
    by_cases h3 : hasKey r "ps_number" <;>
    simp_all [hasKey_dset_ne _ _ _ _ (by decide : ("status" : String) ≠ "id"),
      hasKey_dset_ne _ _ _ _ (by decide : ("ps_number" : String) ≠ "id"),
      hasKey_dset_ne _ _ _ _ (by decide : ("ps_number" : String) ≠ "status")]

/-- Counterexample to C2 as stated: two request records that already
share the identifier `"x"` still share it after one normalizer run —
records are only assigned fresh identifiers when they have none, never
deduplicated — so not every record ends up with a unique identifier. -/
theorem c2_normalizer_counterexample :
    ¬ (((ensure_request_id_and_defaults (fun k => toString k) 0
        [[("id", Value.vStr "x")], [("id", Value.vStr "x")]]).1.map
        (fun r => dget r "id")).Nodup) := by decide

/-- C2 amended, for both normalizers at once (`step` is the request or
the stock loop body): after one run every record has an identifier, and
the identifiers are pairwise distinct *provided* the pre-existing
identifiers were pairwise distinct and the freshly generated ones are
pairwise distinct and disjoint from them (the UUID assumption); absent
`status`/`ps_number` of requests default to `"Pending"`/`"unknown"`; and
a second run at any stream position returns the rows unchanged with
`changed = false`, hence performs no persistence. -/
theorem c2_normalizer_amended (fresh : Nat → String) (n : Nat)
    (rows : List Rec) (step : Nat → Rec → Rec × Nat × Bool)
    (hstep : step = normReqRow fresh ∨ step = normStockRow fresh)
    (hdup : (rows.filterMap (fun r => dget r "id")).Nodup)
    (hdisj : ∀ r ∈ rows, ∀ i, i < rows.length →
      ¬ dget r "id" = some (.vStr (fresh (n + i))))
    (hinj : ∀ i, i < rows.length → ∀ j, j < rows.length →
      fresh (n + i) = fresh (n + j) → i = j) :
    (∀ r ∈ (normListAux step n rows).1, hasKey r "id" = true) ∧
    ((normListAux step n rows).1.map (fun r => dget r "id")).Nodup ∧
    (∀ (r : Rec) (m : Nat), hasKey r "status" = false →
      dget (normReqRow fresh m r).1 "status" = some (.vStr "Pending")) ∧
    (∀ (r : Rec) (m : Nat), hasKey r "ps_number" = false →
      dget (normReqRow fresh m r).1 "ps_number" = some (.vStr "unknown")) ∧
    (∀ m, normListAux step m (normListAux step n rows).1 =
      ((normListAux step n rows).1, m, false)) := by
  have hid : ∀ m r, dget (step m r).1 "id" =
      if hasKey r "id" then dget r "id" else some (.vStr (fresh m)) := by
    rcases hstep with h | h <;> rw [h]
    · exact fun m r => dget_id_normReqRow fresh m r
    · exact fun m r => dget_id_normStockRow fresh m r
  have hcnt : ∀ m r, (step m r).2.1 = if hasKey r "id" then m else m + 1 := by
    rcases hstep with h | h <;> rw [h]
    · exact fun m r => counter_normReqRow fresh m r
    · exact fun m r => counter_normStockRow fresh m r
  have hkeys : ∀ r ∈ (normListAux step n rows).1, hasKey r "id" = true := by
    intro r' hr'
    obtain ⟨r, _, m, hm⟩ := mem_normListAux step rows n r' hr'
    rw [hm]
    unfold hasKey
    rw [hid m r]
    by_cases hk : hasKey r "id"
    · rw [if_pos hk]
      exact hk
    · rw [if_neg hk]
      rfl
  refine ⟨hkeys, ?_, ?_, ?_, ?_⟩
  · exact normListAux_ids_nodup step fresh hid hcnt rows n hdup hdisj hinj
  · exact fun r m h => (defaults_normReqRow fresh m r).1 h
  · exact fun r m h => (defaults_normReqRow fresh m r).2 h
  · intro m
    apply normListAux_eq_self
    intro r' hr' m'
    rcases hstep with h | h <;> rw [h]
    · -- request rows: all three keys are present after the first run
      obtain ⟨r, _, m0, hm⟩ := mem_normListAux step rows n r' hr'
      rw [h] at hm
      have h3 := keys_normReqRow fresh m0 r
      exact normReqRow_eq_self fresh m' r' (hkeys r' hr')
        (by rw [hm]; exact h3.2.1) (by rw [hm]; exact h3.2.2)
    · -- stock rows: id present, integer quantity, normalized project
      obtain ⟨r, _, m0, hm⟩ := mem_normListAux step rows n r' hr'
      rw [h] at hm
      apply normStockRow_eq_self fresh m'
      · exact hm ▸ hkeys r' hr'
      · rw [hm, quantity_normStockRow]
        exact ⟨_, rfl⟩
      · intro s hs
        rw [hm, project_normStockRow] at hs
        rcases hv : dget r "project" with _ | v
        · rw [hv] at hs
          simp at hs
        · rw [hv] at hs
          cases v <;> simp at hs
          rw [← hs]
          exact pyUpperStrip_idem _


/-- A two-record request collection (one record without identifier, one
fully populated) used to witness the amended normalizer claim. -/
def c2rows : List Rec :=
  [[("school_id", Value.vStr "7")],
   [("id", Value.vStr "a"), ("status", Value.vStr "Approved"),
    ("ps_number", Value.vStr "PS2")]]

/-- Witness for C2 amended at a concrete collection: after one run the
identifiers are pairwise distinct, and a second run (at any stream
position, here 5) returns the collection unchanged with
`changed = false`. -/
theorem c2_normalizer_amended_witness :
    (((normListAux (normReqRow (fun k => toString k)) 0 c2rows).1.map
        (fun r => dget r "id")).Nodup) ∧
    (normListAux (normReqRow (fun k => toString k)) 5
        (normListAux (normReqRow (fun k => toString k)) 0 c2rows).1 =
      ((normListAux (normReqRow (fun k => toString k)) 0 c2rows).1, 5,
        false)) := by
  have h := c2_normalizer_amended (fun k => toString k) 0 c2rows
    (normReqRow (fun k => toString k)) (Or.inl rfl)
    (by decide) (by decide) (by decide)
  exact ⟨h.2.1, h.2.2.2.2 5⟩

/-- Counterexample to C8 as stated: a stock record whose only
normalization effect is the project-label rewrite (" moe " to "MOE")
is changed by the run, yet the `changed` flag stays false, so the
normalized collection is *not* persisted back. -/
theorem c8_stock_counterexample :
    (ensure_stock_id_and_defaults (fun k => toString k) 0
      [[("id", Value.vStr "a"), ("quantity", Value.vInt 1),
        ("project", Value.vStr " moe ")]]).1 ≠
      [[("id", Value.vStr "a"), ("quantity", Value.vInt 1),
        ("project", Value.vStr " moe ")]] ∧
    (ensure_stock_id_and_defaults (fun k => toString k) 0
      [[("id", Value.vStr "a"), ("quantity", Value.vInt 1),
        ("project", Value.vStr " moe ")]]).2.2 = false := by
  constructor <;> decide

/-- C8 amended: the stock normalizer defaults an absent quantity to 0 and
coerces quantity with `int()` (invalid values becoming 0), and rewrites a
string project label to its upper-cased trimmed form; but the collection
is persisted back iff some record lacked an `id`, lacked a `quantity`, or
had an uncoercible `quantity` - changes made only by a successful string
coercion or by project normalization do not trigger persistence. -/
theorem c8_stock_normalize_amended (fresh : Nat → String) (n : Nat) (r : Rec)
    (rows : List Rec) :
    dget (normStockRow fresh n r).1 "quantity" =
      some (.vInt (((dget r "quantity").bind pyIntV).getD 0)) ∧
    dget (normStockRow fresh n r).1 "project" =
      (match dget r "project" with
       | some (.vStr s) => some (.vStr (pyUpper (pyStrip s)))
       | v => v) ∧
    (ensure_stock_id_and_defaults fresh n rows).2.2 =
      rows.any stockChangedFlag := by
  refine ⟨quantity_normStockRow fresh n r, project_normStockRow fresh n r, ?_⟩
  exact normListAux_changed _ _ (changed_normStockRow fresh) rows n

/-! ## Claim C9: push/pull round trip

The push leg keeps only the allowed fields *present* on a record; the
pull leg materializes *every* allowed field, absent ones as null.  A
record that lacks some allowed field therefore comes back extended with
explicit nulls; records carrying all allowed fields round-trip exactly. -/

theorem dget_mapProj (cols : List String) (f : String → Value) (k : String) :
    dget (cols.map (fun c => (c, f c))) k =
      if k ∈ cols then some (f k) else none := by
  induction cols with
  | nil => simp [dget]
  | cons c cs ih =>
    by_cases h : c = k
    · subst h
      simp [dget]
    · simp [dget, h, ih, Ne.symm h]

theorem dget_filterKeys (row : Rec) (cols : List String) (k : String) :
    dget (filterKeys row cols) k =
      if k ∈ cols then dget row k else none := by
  induction row with
  | nil => simp [filterKeys, dget, ite_self]
  | cons p rest ih =>
    obtain ⟨k1, v1⟩ := p
    by_cases h1 : k1 ∈ cols <;> by_cases h2 : k1 = k <;>
      simp_all [filterKeys, List.filter_cons, dget]

theorem quantity_mem_of_shapeCoerce (row : Rec) (cols : List String)
    (h : hasKey (filterKeys row cols) "quantity" = true) :
    "quantity" ∈ cols := by
  by_contra hq
  unfold hasKey at h
  rw [dget_filterKeys, if_neg hq] at h
  simp at h

theorem dget_shapeCore_not_mem (t : String) (cols : List String) (row : Rec)
    (k : String) (hk : k ∉ cols) : dget (shapeCore t cols row) k = none := by
  have hf : dget (filterKeys row cols) k = none := by
    rw [dget_filterKeys, if_neg hk]
  simp only [shapeCore]
  split
  · rename_i hcond
    split
    · rename_i kk hpi
      have hkq : k ≠ "quantity" :=
        fun he => hk (he ▸ quantity_mem_of_shapeCoerce row cols hcond.2)
      rw [dget_dset_ne _ _ _ _ hkq]
      exact hf
    · exact hf
  · exact hf

theorem hasKey_shapeCore_mem (t : String) (cols : List String) (row : Rec)
    (k : String) (hmem : k ∈ cols) (hrow : hasKey row k = true) :
    hasKey (shapeCore t cols row) k = true := by
  have hf : dget (filterKeys row cols) k = dget row k := by
    rw [dget_filterKeys, if_pos hmem]
  simp only [shapeCore]
  split
  · split
    · rename_i kk hpi
      by_cases hkq : k = "quantity"
      · subst hkq
        simp [hasKey, dget_dset_self]
      · unfold hasKey
        rw [dget_dset_ne _ _ _ _ hkq, hf]
        exact hrow
    · unfold hasKey
      rw [hf]
      exact hrow
  · unfold hasKey
    rw [hf]
    exact hrow

/-- Counterexample to C9 as stated: pushing the requests record
`{"id": "x"}` stores exactly that field set, but pulling it back writes a
record with all eight allowed fields, the seven missing ones as explicit
nulls — a per-record difference beyond the claimed field projection. -/
theorem c9_roundtrip_counterexample :
    dget (shapeRowPush "requests" [("id", Value.vStr "x")]) "status" =
      none ∧
    dget (pullShapeRow "requests"
      (shapeRowPush "requests" [("id", Value.vStr "x")])) "status" =
      some Value.vNull ∧
    recEqvB
      (pullShapeRow "requests" (shapeRowPush "requests" [("id", Value.vStr "x")]))
      (shapeRowPush "requests" [("id", Value.vStr "x")]) = false := by
  refine ⟨by decide, by decide, by decide⟩

/-- C9 amended: for a record carrying *all* of its table's allowed
fields, pulling right after pushing reproduces exactly the pushed shaped
record (pointwise equal as a dict); fields outside the allowed list are
dropped on both legs.  (Records missing an allowed field instead gain an
explicit null entry for it on the pull leg.) -/
theorem c9_roundtrip_amended (t : String) (cols : List String) (row : Rec)
    (hcols : allowed_fields t = some cols)
    (hall : ∀ k ∈ cols, hasKey row k = true) :
    recEqvB (pullShapeRow t (shapeRowPush t row)) (shapeRowPush t row) =
      true := by
  have hpush : shapeRowPush t row = shapeCore t cols row := by
    unfold shapeRowPush
    rw [hcols]
  have hpt : ∀ k, dget (pullShapeRow t (shapeRowPush t row)) k =
      dget (shapeRowPush t row) k := by
    intro k
    unfold pullShapeRow
    rw [hcols, Option.getD_some, dget_mapProj]
    by_cases hk : k ∈ cols
    · rw [if_pos hk]
      have hhk : hasKey (shapeRowPush t row) k = true := by
        rw [hpush]
        exact hasKey_shapeCore_mem t cols row k hk (hall k hk)
      unfold hasKey at hhk
      obtain ⟨v, hv⟩ := Option.isSome_iff_exists.mp hhk
      rw [hv, Option.getD_some]
    · rw [if_neg hk, hpush, dget_shapeCore_not_mem t cols row k hk]
  unfold recEqvB
  apply List.all_eq_true.mpr
  intro k _
  exact decide_eq_true (hpt k)

/-- A requests record carrying all eight allowed fields plus an extra
field that both legs drop. -/
def c9row : Rec :=
  [("id", Value.vStr "x"), ("school_id", Value.vStr "7"),
   ("category", Value.vStr "c"), ("material", Value.vStr "m"),
   ("quantity", Value.vStr "4"), ("date", Value.vStr "d"),
   ("ps_number", Value.vStr "p"), ("status", Value.vStr "Pending"),
   ("extra", Value.vInt 9)]

/-- Witness for C9 amended at a concrete fully-populated record. -/
theorem c9_roundtrip_amended_witness :
    recEqvB (pullShapeRow "requests" (shapeRowPush "requests" c9row))
      (shapeRowPush "requests" c9row) = true :=
  c9_roundtrip_amended "requests"
    ["id", "school_id", "category", "material", "quantity", "date",
     "ps_number", "status"] c9row (by decide) (by decide)

/-! ## Claims C1 and C10: `persist_requests` -/

theorem dget_dsetdefault_ne (d : Rec) (k k₂ : String) (v : Value)
    (h : k₂ ≠ k) : dget (dsetdefault d k v) k₂ = dget d k₂ := by
  unfold dsetdefault
  split
  · rfl
  · exact dget_dset_ne d k k₂ v h

theorem dsetdefault_eq_of_hasKey (d : Rec) (k : String) (v : Value)
    (h : hasKey d k = true) : dsetdefault d k v = d := by
  unfold dsetdefault
  rw [if_pos h]

/-- The item produced by the `persist_requests` loop always carries its
own identifier. -/
theorem dget_persistItem_id (fresh : Nat → String) (n : Nat) (rec : Rec) :
    dget (persistItem fresh n rec).1 "id" =
      some (.vStr (persistItem fresh n rec).2.1) := by
  have hbase : ∀ (d : Rec), dget
      (dsetdefault (dsetdefault d "status" (.vStr "Pending"))
        "ps_number" (.vStr "unknown")) "id" = dget d "id" := by
    intro d
    rw [dget_dsetdefault_ne _ _ _ _ (by decide),
        dget_dsetdefault_ne _ _ _ _ (by decide)]
  have hq : ∀ (d : Rec),
      dget (if hasKey d "quantity" then
        match pyIntV ((dget d "quantity").getD .vNull) with
        | some k => dset d "quantity" (.vInt k)
        | none => d
      else d) "id" = dget d "id" := by
    intro d
    split
    · split
      · rw [dget_dset_ne _ _ _ _ (by decide)]
      · rfl
    · rfl
  simp only [persistItem]
  rw [hq, hbase, dget_dset_self]

/-- The item's identifier is non-blank, provided the fresh-identifier
stream never yields a whitespace-only string (true of UUID strings). -/
theorem ridOf_persistItem (fresh : Nat → String)
    (hf : ∀ i, pyStrip (fresh i) ≠ "") (n : Nat) (rec : Rec) :
    ridOf (persistItem fresh n rec).1 ≠ "" := by
  unfold ridOf
  rw [dget_persistItem_id]
  show pyStrip (pyStr (.vStr (persistItem fresh n rec).2.1)) ≠ ""
  have hrid : (persistItem fresh n rec).2.1 =
      if ridTruthy rec = "" then fresh n else ridTruthy rec := by
    simp only [persistItem]
  rw [hrid]
  by_cases h0 : ridTruthy rec = ""
  · rw [if_pos h0]
    exact hf n
  · rw [if_neg h0]
    show pyStrip (ridTruthy rec) ≠ ""
    unfold ridTruthy at h0 ⊢
    rw [pyStrip_idem]
    exact h0

theorem mem_dset_pairs {α β : Type} [DecidableEq α] (d : List (α × β))
    (k : α) (v : β) (p : α × β) (hp : p ∈ dset d k v) :
    p = (k, v) ∨ p ∈ d := by
  induction d with
  | nil => simpa [dset] using hp
  | cons q rest ih =>
    obtain ⟨k1, v1⟩ := q
    by_cases h : k1 = k
    · simp [dset, h] at hp
      rcases hp with h1 | h1
      · exact Or.inl (by simp [h1])
      · exact Or.inr (by simp [h1])
    · simp [dset, h] at hp
      rcases hp with h1 | h1
      · exact Or.inr (by simp [h1])
      · rcases ih h1 with h2 | h2
        · exact Or.inl h2
        · exact Or.inr (by simp [h2])

/-- Every row indexed by the `by_id` construction has a non-blank
identifier key. -/
theorem persistInitAux_inv (rows : List Rec) (d : List (String × Rec))
    (hd : ∀ p ∈ d, ridOf p.2 ≠ "") :
    ∀ p ∈ persistInitAux d rows, ridOf p.2 ≠ "" := by
  induction rows generalizing d with
  | nil => exact hd
  | cons row rest ih =>
    by_cases h : ridOf row = ""
    · simpa [persistInitAux, h] using ih d hd
    · simp only [persistInitAux, h, if_false, Bool.false_eq_true]
      apply ih
      intro p hp
      rcases mem_dset_pairs d (ridOf row) row p hp with h1 | h1
      · rw [h1]; exact h
      · exact hd p h1

/-- Every row in the dictionary after the merge loop has a non-blank
identifier. -/
theorem persistLoop_inv (fresh : Nat → String)
    (hf : ∀ i, pyStrip (fresh i) ≠ "") (records : List Rec) (n : Nat)
    (d : List (String × Rec)) (hd : ∀ p ∈ d, ridOf p.2 ≠ "") :
    ∀ p ∈ (persistLoop fresh n d records).1, ridOf p.2 ≠ "" := by
  induction records generalizing n d with
  | nil => exact hd
  | cons rec rest ih =>
    intro p hp
    simp only [persistLoop] at hp
    refine ih (persistItem fresh n rec).2.2 _ ?_ p hp
    intro q hq
    rcases mem_dset_pairs d (persistItem fresh n rec).2.1
      (persistItem fresh n rec).1 q hq with h1 | h1
    · rw [h1]
      exact ridOf_persistItem fresh hf n rec
    · exact hd q h1

/-- What `persist_requests` leaves in `requests.json`, for any remote
outcome. -/
theorem persist_localFile (fresh : Nat → String) (n : Nat) (rm : Remote)
    (existing records : List Rec) :
    (persist_requests fresh n rm existing records).localFile =
      if records = [] then existing
      else dvalues (persistLoop fresh n (persistInit existing) records).1 := by
  unfold persist_requests
  by_cases h : records = []
  · rw [if_pos h, if_pos h]
  · rw [if_neg h, if_neg h]
    cases rm
    · rfl
    · rfl
    · dsimp only
      split <;> rfl

/-- C10: after any `persist_requests` call with a non-empty batch, every
record written back to the local collection has a non-blank identifier;
in particular any pre-existing local record whose identifier is missing
or blank is silently dropped from the file even though it was not among
the records being saved. -/
theorem c10_persist_drops_blank_ids (fresh : Nat → String) (n : Nat)
    (rm : Remote) (existing records : List Rec)
    (hf : ∀ i, pyStrip (fresh i) ≠ "") (hne : records ≠ []) :
    (∀ row ∈ (persist_requests fresh n rm existing records).localFile,
      ridOf row ≠ "") ∧
    (∀ row ∈ existing, ridOf row = "" →
      row ∉ (persist_requests fresh n rm existing records).localFile) := by
  have hmain : ∀ row ∈ (persist_requests fresh n rm existing records).localFile,
      ridOf row ≠ "" := by
    intro row hrow
    rw [persist_localFile, if_neg hne] at hrow
    obtain ⟨p, hp, hpe⟩ := List.mem_map.mp hrow
    rw [← hpe]
    refine persistLoop_inv fresh hf records n (persistInit existing) ?_ p hp
    intro q hq
    exact persistInitAux_inv existing [] (by simp) q hq
  refine ⟨hmain, ?_⟩
  intro row hrow hblank hmem
  exact hmain row hmem hblank

/-- Witness for C10: persisting one record drops the pre-existing
blank-id rows (one with no id, one with a whitespace id) and keeps
non-blank ids only. -/
theorem c10_persist_drops_blank_ids_witness :
    (∀ row ∈ (persist_requests (fun _ => "u") 0 .ok
      [[("school_id", Value.vStr "7")],
       [("id", Value.vStr "  ")],
       [("id", Value.vStr "keep"), ("status", Value.vStr "Approved")]]
      [[("id", Value.vStr "r1"), ("status", Value.vStr "Pending"),
        ("ps_number", Value.vStr "PS9")]]).localFile, ridOf row ≠ "") ∧
    (∀ row ∈ [[("school_id", Value.vStr "7")],
       [("id", Value.vStr "  ")],
       [("id", Value.vStr "keep"), ("status", Value.vStr "Approved")]],
      ridOf row = "" →
      row ∉ (persist_requests (fun _ => "u") 0 .ok
        [[("school_id", Value.vStr "7")],
         [("id", Value.vStr "  ")],
         [("id", Value.vStr "keep"), ("status", Value.vStr "Approved")]]
        [[("id", Value.vStr "r1"), ("status", Value.vStr "Pending"),
          ("ps_number", Value.vStr "PS9")]]).localFile) :=
  c10_persist_drops_blank_ids (fun _ => "u") 0 .ok _ _
    (fun i => by show pyStrip "u" ≠ ""; decide) (by decide)

/-- A fully-formed record is passed through the loop unchanged, keyed by
its own (already trimmed, non-empty) identifier, at an unmoved
fresh-stream position. -/
theorem persistItem_eq_self (fresh : Nat → String) (n : Nat) (r : Rec)
    (s : String) (hid : dget r "id" = some (.vStr s)) (hs : s ≠ "")
    (hstrip : pyStrip s = s) (hst : hasKey r "status" = true)
    (hps : hasKey r "ps_number" = true)
    (hq : dget r "quantity" = none ∨
      ∃ k : Int, dget r "quantity" = some (.vInt k)) :
    persistItem fresh n r = (r, s, n) := by
  have h0 : ridTruthy r = s := by
    unfold ridTruthy
    rw [hid]
    show pyStrip (pyStr (if pyTruthy (.vStr s) then Value.vStr s
      else .vStr "")) = s
    rw [if_pos (by simp [pyTruthy, hs])]
    exact hstrip
  simp only [persistItem, h0, hs, if_false, Bool.false_eq_true,
    dset_eq_of_dget r "id" (.vStr s) hid,
    dsetdefault_eq_of_hasKey r "status" _ hst,
    dsetdefault_eq_of_hasKey r "ps_number" _ hps]
  rcases hq with hq | ⟨k, hq⟩
  · rw [if_neg (by simp [hasKey, hq])]
  · rw [if_pos (by simp [hasKey, hq]), hq]
    show (match pyIntV (Value.vInt k) with
      | some k => (dset r "quantity" (Value.vInt k), s, n)
      | none => (r, s, n)) = (r, s, n)
    simp only [pyIntV]
    rw [dset_eq_of_dget r "quantity" (.vInt k) hq]

/-- C1: a single-record `persist(requests=[r])` call whose remote upsert
fails returns `saved = 1`, `synced = 0` and the raised error, while the
local collection written beforehand contains `r`; and the local write is
independent of the remote outcome (the same file contents result for
every remote behaviour). -/
theorem c1_persist_remote_down (fresh : Nat → String) (n : Nat)
    (existing : List Rec) (msg : String) (r : Rec) (s : String)
    (hid : dget r "id" = some (.vStr s)) (hs : s ≠ "")
    (hstrip : pyStrip s = s) (hst : hasKey r "status" = true)
    (hps : hasKey r "ps_number" = true)
    (hq : dget r "quantity" = none ∨
      ∃ k : Int, dget r "quantity" = some (.vInt k)) :
    (persist_requests fresh n (.fails msg) existing [r]).saved = 1 ∧
    (persist_requests fresh n (.fails msg) existing [r]).synced = 0 ∧
    (persist_requests fresh n (.fails msg) existing [r]).error = some msg ∧
    r ∈ (persist_requests fresh n (.fails msg) existing [r]).localFile ∧
    (∀ rm1 rm2 : Remote,
      (persist_requests fresh n rm1 existing [r]).localFile =
      (persist_requests fresh n rm2 existing [r]).localFile) := by
  have hloop : persistLoop fresh n (persistInit existing) [r] =
      (dset (persistInit existing) s r, [reqPayload r], n) := by
    simp only [persistLoop, persistItem_eq_self fresh n r s hid hs hstrip
      hst hps hq]
  have hout : persist_requests fresh n (.fails msg) existing [r] =
      ⟨dvalues (dset (persistInit existing) s r), 1, 0, some msg⟩ := by
    unfold persist_requests
    rw [if_neg (by simp), hloop]
    rfl
  refine ⟨by rw [hout], by rw [hout], by rw [hout], ?_, ?_⟩
  · rw [hout]
    exact mem_dvalues_dset (persistInit existing) s r
  · intro rm1 rm2
    rw [persist_localFile, persist_localFile]

/-- Witness for C1 at a concrete record and non-empty pre-existing
collection. -/
theorem c1_persist_remote_down_witness :
    (persist_requests (fun k => toString k) 0 (.fails "down")
      [[("id", Value.vStr "old"), ("status", Value.vStr "Approved")]]
      [[("id", Value.vStr "r1"), ("school_id", Value.vStr "7"),
        ("status", Value.vStr "Pending"), ("ps_number", Value.vStr "PS9"),
        ("quantity", Value.vInt 2)]]).saved = 1 ∧
    (persist_requests (fun k => toString k) 0 (.fails "down")
      [[("id", Value.vStr "old"), ("status", Value.vStr "Approved")]]
      [[("id", Value.vStr "r1"), ("school_id", Value.vStr "7"),
        ("status", Value.vStr "Pending"), ("ps_number", Value.vStr "PS9"),
        ("quantity", Value.vInt 2)]]).synced = 0 ∧
    (persist_requests (fun k => toString k) 0 (.fails "down")
      [[("id", Value.vStr "old"), ("status", Value.vStr "Approved")]]
      [[("id", Value.vStr "r1"), ("school_id", Value.vStr "7"),
        ("status", Value.vStr "Pending"), ("ps_number", Value.vStr "PS9"),
        ("quantity", Value.vInt 2)]]).error = some "down" ∧
    [("id", Value.vStr "r1"), ("school_id", Value.vStr "7"),
     ("status", Value.vStr "Pending"), ("ps_number", Value.vStr "PS9"),
     ("quantity", Value.vInt 2)] ∈
      (persist_requests (fun k => toString k) 0 (.fails "down")
        [[("id", Value.vStr "old"), ("status", Value.vStr "Approved")]]
        [[("id", Value.vStr "r1"), ("school_id", Value.vStr "7"),
          ("status", Value.vStr "Pending"), ("ps_number", Value.vStr "PS9"),
          ("quantity", Value.vInt 2)]]).localFile ∧
    (∀ rm1 rm2 : Remote,
      (persist_requests (fun k => toString k) 0 rm1
        [[("id", Value.vStr "old"), ("status", Value.vStr "Approved")]]
        [[("id", Value.vStr "r1"), ("school_id", Value.vStr "7"),
          ("status", Value.vStr "Pending"), ("ps_number", Value.vStr "PS9"),
          ("quantity", Value.vInt 2)]]).localFile =
      (persist_requests (fun k => toString k) 0 rm2
        [[("id", Value.vStr "old"), ("status", Value.vStr "Approved")]]
        [[("id", Value.vStr "r1"), ("school_id", Value.vStr "7"),
          ("status", Value.vStr "Pending"), ("ps_number", Value.vStr "PS9"),
          ("quantity", Value.vInt 2)]]).localFile) :=
  c1_persist_remote_down (fun k => toString k) 0
    [[("id", Value.vStr "old"), ("status", Value.vStr "Approved")]] "down"
    _ "r1" (by decide) (by decide) (by decide) (by decide) (by decide)
    (Or.inr ⟨2, by decide⟩)

/-! ## Claim C3: Pending-only editability and the Save Changes frame -/

theorem keys_dset_subset {α β : Type} [DecidableEq α] (d : List (α × β))
    (k : α) (v : β) (x : α) (hx : x ∈ (dset d k v).map Prod.fst) :
    x = k ∨ x ∈ d.map Prod.fst := by
  induction d with
  | nil => simpa [dset] using hx
  | cons q rest ih =>
    obtain ⟨k1, v1⟩ := q
    by_cases h : k1 = k
    · simp [dset, h] at hx
      rcases hx with h1 | h1
      · exact Or.inl h1
      · exact Or.inr (by simp [h1])
    · simp [dset, h] at hx
      rcases hx with h1 | h1
      · exact Or.inr (by simp [h1])
      · rcases ih (by simpa using h1) with h2 | h2
        · exact Or.inl h2
        · exact Or.inr (by simp; right; simpa using h2)

theorem keys_dset_nodup {α β : Type} [DecidableEq α] (d : List (α × β))
    (k : α) (v : β) (hd : (d.map Prod.fst).Nodup) :
    ((dset d k v).map Prod.fst).Nodup := by
  induction d with
  | nil => simp [dset]
  | cons q rest ih =>
    obtain ⟨k1, v1⟩ := q
    simp only [List.map_cons, List.nodup_cons] at hd
    by_cases h : k1 = k
    · subst h
      simpa [dset, List.nodup_cons] using hd
    · simp only [dset, h, if_false, Bool.false_eq_true, List.map_cons,
        List.nodup_cons]
      refine ⟨?_, ih hd.2⟩
      intro hmem
      rcases keys_dset_subset rest k v k1 hmem with h1 | h1
      · exact h h1
      · exact hd.1 h1

theorem dget_of_mem_nodupKeys {α β : Type} [DecidableEq α]
    (d : List (α × β)) (k : α) (v : β) (hmem : (k, v) ∈ d)
    (hd : (d.map Prod.fst).Nodup) : dget d k = some v := by
  induction d with
  | nil => simp at hmem
  | cons q rest ih =>
    obtain ⟨k1, v1⟩ := q
    simp only [List.map_cons, List.nodup_cons] at hd
    rcases List.mem_cons.mp hmem with h1 | h1
    · injection h1 with ha hb
      simp [dget, ha, hb]
    · have hk : k1 ≠ k := by
        intro he
        subst he
        exact hd.1 (by simpa using List.mem_map_of_mem Prod.fst h1)
      simp [dget, hk, ih h1 hd.2]

/-- The `by_id` build succeeds when every row carries an identifier. -/
theorem buildById_some (rows : List Rec) (d : List (Value × Rec))
    (h : ∀ r ∈ rows, hasKey r "id" = true) :
    ∃ dOut, buildById d rows = some dOut := by
  induction rows generalizing d with
  | nil => exact ⟨d, rfl⟩
  | cons r rs ih =>
    obtain ⟨idv, hidv⟩ := Option.isSome_iff_exists.mp (h r (by simp))
    obtain ⟨dOut, hOut⟩ := ih (dset d idv r) (fun r2 h2 => h r2 (by simp [h2]))
    exact ⟨dOut, by simp [buildById, hidv, hOut]⟩

theorem buildById_frame (rows : List Rec) (d dOut : List (Value × Rec))
    (k : Value) (h : buildById d rows = some dOut)
    (hk : ∀ r ∈ rows, dget r "id" ≠ some k) :
    dget dOut k = dget d k := by
  induction rows generalizing d with
  | nil => simp [buildById] at h; rw [h]
  | cons r rs ih =>
    simp only [buildById] at h
    cases hidv : dget r "id" with
    | none => rw [hidv] at h; simp at h
    | some idv =>
      rw [hidv] at h
      have hne : k ≠ idv := by
        intro he
        exact hk r (by simp) (by rw [hidv, he])
      rw [ih (dset d idv r) h (fun r2 h2 => hk r2 (by simp [h2])),
        dget_dset_ne _ _ _ _ hne]

theorem buildById_found (rows : List Rec) (d dOut : List (Value × Rec))
    (h : buildById d rows = some dOut)
    (hnodup : (rows.map (fun r => dget r "id")).Nodup)
    (B : Rec) (hB : B ∈ rows) (bid : Value)
    (hbid : dget B "id" = some bid) : dget dOut bid = some B := by
  induction rows generalizing d with
  | nil => simp at hB
  | cons r rs ih =>
    simp only [buildById] at h
    simp only [List.map_cons, List.nodup_cons] at hnodup
    rcases List.mem_cons.mp hB with h1 | h1
    · subst h1
      rw [hbid] at h
      have hfr : ∀ r2 ∈ rs, dget r2 "id" ≠ some bid := by
        intro r2 h2 he
        refine hnodup.1 ?_
        have hBr2 : dget B "id" = dget r2 "id" := by rw [hbid, he]
        rw [hBr2]
        exact List.mem_map_of_mem (fun r => dget r "id") h2
      rw [buildById_frame rs (dset d bid B) dOut bid h hfr,
        dget_dset_self]
    · cases hidv : dget r "id" with
      | none => rw [hidv] at h; simp at h
      | some idv =>
        rw [hidv] at h
        exact ih (dset d idv r) h hnodup.2 h1

theorem buildById_inv1 (rows : List Rec) (d dOut : List (Value × Rec))
    (h : buildById d rows = some dOut)
    (hd : ∀ p ∈ d, dget p.2 "id" = some p.1) :
    ∀ p ∈ dOut, dget p.2 "id" = some p.1 := by
  induction rows generalizing d with
  | nil => simp [buildById] at h; rw [← h]; exact hd
  | cons r rs ih =>
    simp only [buildById] at h
    cases hidv : dget r "id" with
    | none => rw [hidv] at h; simp at h
    | some idv =>
      rw [hidv] at h
      refine ih (dset d idv r) h ?_
      intro p hp
      rcases mem_dset_pairs d idv r p hp with h1 | h1
      · rw [h1]; exact hidv
      · exact hd p h1

theorem buildById_keys_nodup (rows : List Rec) (d dOut : List (Value × Rec))
    (h : buildById d rows = some dOut)
    (hd : (d.map Prod.fst).Nodup) : (dOut.map Prod.fst).Nodup := by
  induction rows generalizing d with
  | nil => simp [buildById] at h; rw [← h]; exact hd
  | cons r rs ih =>
    simp only [buildById] at h
    cases hidv : dget r "id" with
    | none => rw [hidv] at h; simp at h
    | some idv =>
      rw [hidv] at h
      exact ih (dset d idv r) h (keys_dset_nodup d idv r hd)

/-- The edit keys never touch the identifier. -/
theorem dget_applyEdit_id (admin : Bool) (er t : Rec) :
    dget (applyEdit admin er t) "id" = dget t "id" := by
  have hgen : ∀ (keys : List String), (∀ k ∈ keys, k ≠ "id") → ∀ t : Rec,
      dget (keys.foldl (fun t k =>
        match dget er k with
        | some v => dset t k v
        | none => t) t) "id" = dget t "id" := by
    intro keys
    induction keys with
    | nil => intro _ t; rfl
    | cons k ks ih =>
      intro hk t
      simp only [List.foldl_cons]
      rw [ih (fun k2 h2 => hk k2 (by simp [h2]))]
      cases dget er k with
      | none => rfl
      | some v => exact dget_dset_ne t k "id" v (Ne.symm (hk k (by simp)))
  unfold applyEdit
  apply hgen
  cases admin <;> decide

theorem saveAux_some (admin : Bool) (pend : List Rec) (es : List (Nat × Rec))
    (hes : ∀ q ∈ es, ∃ p, pend.get? q.1 = some p ∧ hasKey p "id" = true) :
    ∀ d, ∃ dOut, saveChangesAux admin pend d es = some dOut := by
  induction es with
  | nil => exact fun d => ⟨d, rfl⟩
  | cons q rest ih =>
    intro d
    obtain ⟨i, er⟩ := q
    obtain ⟨p, hp, hpk⟩ := hes (i, er) (by simp)
    obtain ⟨rid, hrid⟩ := Option.isSome_iff_exists.mp hpk
    obtain ⟨dOut, hOut⟩ := ih (fun q2 h2 => hes q2 (by simp [h2]))
      (match dget d rid with
       | some tgt => dset d rid (applyEdit admin er tgt)
       | none => d)
    refine ⟨dOut, ?_⟩
    simp only [saveChangesAux]
    rw [show pend.get? i = some p from hp]
    dsimp only
    rw [hrid]
    exact hOut

theorem saveAux_frame (admin : Bool) (pend : List Rec)
    (es : List (Nat × Rec)) (bid : Value)
    (hb : ∀ p ∈ pend, dget p "id" ≠ some bid) :
    ∀ d dOut, saveChangesAux admin pend d es = some dOut →
      dget dOut bid = dget d bid := by
  induction es with
  | nil => intro d dOut h; simp [saveChangesAux] at h; rw [h]
  | cons q rest ih =>
    intro d dOut h
    obtain ⟨i, er⟩ := q
    simp only [saveChangesAux] at h
    cases hp : pend.get? i with
    | none => rw [hp] at h; simp at h
    | some p =>
      rw [hp] at h
      dsimp only at h
      cases hrid : dget p "id" with
      | none => rw [hrid] at h; simp at h
      | some rid =>
        rw [hrid] at h
        dsimp only at h
        have hne : bid ≠ rid := by
          intro he
          exact hb p (List.get?_mem hp) (by rw [hrid, he])
        rw [ih _ dOut h]
        cases htgt : dget d rid with
        | none => rfl
        | some tgt => exact dget_dset_ne d rid bid _ hne

theorem saveAux_inv1 (admin : Bool) (pend : List Rec)
    (es : List (Nat × Rec)) :
    ∀ d dOut, saveChangesAux admin pend d es = some dOut →
      (∀ p ∈ d, dget p.2 "id" = some p.1) →
      ∀ p ∈ dOut, dget p.2 "id" = some p.1 := by
  induction es with
  | nil => intro d dOut h hd; simp [saveChangesAux] at h; rw [← h]; exact hd
  | cons q rest ih =>
    intro d dOut h hd
    obtain ⟨i, er⟩ := q
    simp only [saveChangesAux] at h
    cases hp : pend.get? i with
    | none => rw [hp] at h; simp at h
    | some p0 =>
      rw [hp] at h
      dsimp only at h
      cases hrid : dget p0 "id" with
      | none => rw [hrid] at h; simp at h
      | some rid =>
        rw [hrid] at h
        dsimp only at h
        refine ih _ dOut h ?_
        cases htgt : dget d rid with
        | none => exact hd
        | some tgt =>
          intro p hpmem
          rcases mem_dset_pairs d rid (applyEdit admin er tgt) p hpmem with
            h1 | h1
          · rw [h1]
            show dget (applyEdit admin er tgt) "id" = some rid
            rw [dget_applyEdit_id]
            exact hd (rid, tgt) (dget_mem d rid tgt htgt)
          · exact hd p h1

theorem saveAux_keys_nodup (admin : Bool) (pend : List Rec)
    (es : List (Nat × Rec)) :
    ∀ d dOut, saveChangesAux admin pend d es = some dOut →
      (d.map Prod.fst).Nodup → (dOut.map Prod.fst).Nodup := by
  induction es with
  | nil => intro d dOut h hd; simp [saveChangesAux] at h; rw [← h]; exact hd
  | cons q rest ih =>
    intro d dOut h hd
    obtain ⟨i, er⟩ := q
    simp only [saveChangesAux] at h
    cases hp : pend.get? i with
    | none => rw [hp] at h; simp at h
    | some p0 =>
      rw [hp] at h
      dsimp only at h
      cases hrid : dget p0 "id" with
      | none => rw [hrid] at h; simp at h
      | some rid =>
        rw [hrid] at h
        dsimp only at h
        refine ih _ dOut h ?_
        cases htgt : dget d rid with
        | none => exact hd
        | some tgt => exact keys_dset_nodup d rid _ hd

theorem enumFrom_lt {α : Type} (l : List α) (j i : Nat) (a : α)
    (h : (i, a) ∈ enumFrom j l) : i < j + l.length := by
  induction l generalizing j with
  | nil => simp [enumFrom] at h
  | cons x xs ih =>
    simp only [enumFrom, List.mem_cons] at h
    rcases h with h | h
    · injection h with h1 h2
      simp only [List.length_cons]
      omega
    · have := ih (j + 1) h
      simp only [List.length_cons]
      omega

/-- C3: with well-identified rows (every row has an id, ids pairwise
distinct), a Pending row A shows up in the editable set and a non-Pending
row B only in the read-only set; and for *any* edited grid contents and
either role, the Save Changes path returns a collection that still
contains B with every field unchanged, and contains nothing else under
B's identifier. -/
theorem c3_pending_only_save_frame (rows edits : List Rec) (A B : Rec)
    (admin : Bool)
    (hids : ∀ r ∈ rows, hasKey r "id" = true)
    (hnodup : (rows.map (fun r => dget r "id")).Nodup)
    (hA : A ∈ rows) (hApend : isPending A = true)
    (hB : B ∈ rows) (hBpend : isPending B = false)
    (hlen : edits.length ≤ (pendingOf rows).length) :
    A ∈ pendingOf rows ∧ A ∉ finalizedOf rows ∧
    B ∈ finalizedOf rows ∧ B ∉ pendingOf rows ∧
    ∃ out, saveChanges admin rows edits = some out ∧ B ∈ out ∧
      ∀ r ∈ out, dget r "id" = dget B "id" → r = B := by
  refine ⟨List.mem_filter.mpr ⟨hA, hApend⟩, ?_, ?_, ?_, ?_⟩
  · intro hmem
    have := (List.mem_filter.mp hmem).2
    rw [hApend] at this
    simp at this
  · exact List.mem_filter.mpr ⟨hB, by rw [hBpend]; rfl⟩
  · intro hmem
    have := (List.mem_filter.mp hmem).2
    rw [hBpend] at this
    simp at this
  · obtain ⟨bid, hbid⟩ := Option.isSome_iff_exists.mp (hids B hB)
    obtain ⟨d0, hd0⟩ := buildById_some rows [] hids
    have hd0B : dget d0 bid = some B :=
      buildById_found rows [] d0 hd0 hnodup B hB bid hbid
    have hd0inv : ∀ p ∈ d0, dget p.2 "id" = some p.1 :=
      buildById_inv1 rows [] d0 hd0 (by simp)
    have hd0keys : (d0.map Prod.fst).Nodup :=
      buildById_keys_nodup rows [] d0 hd0 (by simp)
    have hes : ∀ q ∈ enumFrom 0 edits, ∃ p,
        (pendingOf rows).get? q.1 = some p ∧ hasKey p "id" = true := by
      intro q hq
      obtain ⟨i, er⟩ := q
      have hi : i < edits.length := by
        have := enumFrom_lt edits 0 i er hq
        omega
      have hi2 : i < (pendingOf rows).length := by omega
      refine ⟨(pendingOf rows).get ⟨i, hi2⟩, List.get?_eq_get hi2, ?_⟩
      have hpmem : (pendingOf rows).get ⟨i, hi2⟩ ∈ pendingOf rows :=
        List.get_mem _ _ hi2
      exact hids _ (List.mem_filter.mp hpmem).1
    obtain ⟨dF, hdF⟩ := saveAux_some admin (pendingOf rows)
      (enumFrom 0 edits) hes d0
    have hpendB : ∀ p ∈ pendingOf rows, dget p "id" ≠ some bid := by
      intro p hp he
      have hpB : p = B := by
        have hpr : p ∈ rows := (List.mem_filter.mp hp).1
        exact List.inj_on_of_nodup_map hnodup hpr hB (by rw [he, hbid])
      rw [hpB] at hp
      have := (List.mem_filter.mp hp).2
      rw [hBpend] at this
      simp at this
    have hdFB : dget dF bid = some B := by
      rw [saveAux_frame admin (pendingOf rows) (enumFrom 0 edits) bid
        hpendB d0 dF hdF]
      exact hd0B
    have hdFinv : ∀ p ∈ dF, dget p.2 "id" = some p.1 :=
      saveAux_inv1 admin (pendingOf rows) (enumFrom 0 edits) d0 dF hdF hd0inv
    have hdFkeys : (dF.map Prod.fst).Nodup :=
      saveAux_keys_nodup admin (pendingOf rows) (enumFrom 0 edits) d0 dF
        hdF hd0keys
    refine ⟨dvalues dF, ?_, ?_, ?_⟩
    · unfold saveChanges
      rw [hd0]
      dsimp only
      rw [hdF]
      rfl
    · exact List.mem_map_of_mem Prod.snd (dget_mem dF bid B hdFB)
    · intro r hr hrid
      obtain ⟨p, hp, hpe⟩ := List.mem_map.mp hr
      have hpid : dget p.2 "id" = some p.1 := hdFinv p hp
      rw [hpe] at hpid
      rw [hrid, hbid] at hpid
      injection hpid with hpid1
      have : dget dF bid = some r := by
        rw [← hpe]
        refine dget_of_mem_nodupKeys dF bid p.2 ?_ hdFkeys
        rw [show bid = p.1 from hpid1]
        exact (show (p.1, p.2) ∈ dF by simpa using hp)
      rw [hdFB] at this
      injection this with h2
      exact h2.symm

/-- Witness for C3: an admin edit of the single pending row leaves the
Approved row untouched in the saved collection. -/
theorem c3_pending_only_save_frame_witness :
    ([("id", Value.vStr "a"), ("status", Value.vStr "Pending"),
      ("quantity", Value.vInt 1)] ∈
      pendingOf [[("id", Value.vStr "a"), ("status", Value.vStr "Pending"),
        ("quantity", Value.vInt 1)],
       [("id", Value.vStr "b"), ("status", Value.vStr "Approved"),
        ("quantity", Value.vInt 5)]]) ∧
    (∃ out, saveChanges true
      [[("id", Value.vStr "a"), ("status", Value.vStr "Pending"),
        ("quantity", Value.vInt 1)],
       [("id", Value.vStr "b"), ("status", Value.vStr "Approved"),
        ("quantity", Value.vInt 5)]]
      [[("quantity", Value.vInt 9), ("status", Value.vStr "Rejected")]] =
        some out ∧
      [("id", Value.vStr "b"), ("status", Value.vStr "Approved"),
       ("quantity", Value.vInt 5)] ∈ out ∧
      ∀ r ∈ out, dget r "id" =
          dget [("id", Value.vStr "b"), ("status", Value.vStr "Approved"),
            ("quantity", Value.vInt 5)] "id" →
        r = [("id", Value.vStr "b"), ("status", Value.vStr "Approved"),
          ("quantity", Value.vInt 5)]) := by
  have h := c3_pending_only_save_frame
    [[("id", Value.vStr "a"), ("status", Value.vStr "Pending"),
      ("quantity", Value.vInt 1)],
     [("id", Value.vStr "b"), ("status", Value.vStr "Approved"),
      ("quantity", Value.vInt 5)]]
    [[("quantity", Value.vInt 9), ("status", Value.vStr "Rejected")]]
    [("id", Value.vStr "a"), ("status", Value.vStr "Pending"),
     ("quantity", Value.vInt 1)]
    [("id", Value.vStr "b"), ("status", Value.vStr "Approved"),
     ("quantity", Value.vInt 5)] true
    (by decide) (by decide) (by decide) (by decide) (by decide) (by decide)
    (by decide)
  exact ⟨h.1, h.2.2.2.2⟩

end SJJP
